import Mathlib

/-!
# Verification of the voicetranslator ingest/debounce/broadcast pipeline

Shallow embedding of the core server state and operations of
`src/server/server.js` (the SSE multi-client state, the smart-debounce
translation pipeline, the session log, visitor settings and the ingest
endpoint), together with theorems settling the specification claims.

Conventions of the embedding:
* JavaScript `Map`s become association lists in insertion order
  (`alookup` finds the first entry, `aset` overwrites in place,
  `aerase` removes the key; keys are unique in every reachable state,
  so removing every occurrence coincides with `Map.delete`).
* `setTimeout` handles become numbered `Timer` records held in a list;
  `clearTimeout` removes a timer by its number. Real time is a `Nat`
  millisecond clock carried in the state; a timed run fires due timers
  in `(fireAt, id)` order before each external event.
* The translation call is an oracle `Translator`; `none` models a
  rejected upstream call. Every translator invocation is recorded in
  the `calls` trace; every successful SSE write is recorded in the
  `pushLog` trace (client id and wire message).
* An SSE client whose underlying socket write throws is modelled by
  `pushOk = false`; `sseSend` to it fails, which the broadcast loop
  catches (matching the `try/catch` in `broadcastToLang`).
-/

set_option maxHeartbeats 1000000

/-- The supported-language whitelist, `SUPPORTED_LANGS` in `server.js`. -/
def SUPPORTED_LANGS : List String :=
  ["en", "es", "fr", "de", "it", "pt", "zh", "ja", "ko", "ar", "ru"]

/-- `DEBOUNCE_MS` in `server.js`: the short coalescing window. -/
def DEBOUNCE_MS : Nat := 50

/-- `MAX_WAIT_MS` in `server.js`: the absolute flush deadline. -/
def MAX_WAIT_MS : Nat := 3000

/-- JavaScript `toLowerCase()` on a language tag (character-wise
lowercasing; defined over the string's character data so that concrete
instances evaluate). -/
def jsToLower (s : String) : String := String.mk (s.data.map Char.toLower)

/-- An SSE client as stored in `sseClients`: its language, whether writes to
its response stream succeed, and its connect time. -/
structure Client where
  lang : String
  pushOk : Bool
  connectedAt : Nat
  deriving DecidableEq, Repr

/-- One `sessionLog` entry as pushed by `flushLang`. -/
structure LogEntry where
  timestamp : Nat
  seq : Option ℚ
  lang : String
  sourceText : String
  translatedText : String
  latencyMs : Nat
  deriving DecidableEq, Repr

/-- The `data` field of a wire event. -/
inductive EventData where
  | hello (lang : String) (clientId : Nat)
  | settings (ttsRate : ℚ)
  | chunk (text : String) (ts : Nat) (seq : Option ℚ)
  | ping (t : Nat)
  deriving DecidableEq, Repr

/-- A wire message written by `sseSend`: optional `id` line, `event` line
and JSON `data`. -/
structure SseMsg where
  id : Option Nat
  event : String
  data : EventData
  deriving DecidableEq, Repr

/-- A pending per-language batch, the values of `pendingByLang`. -/
structure PendingBatch where
  texts : List String
  ts : Option Nat
  seq : Option ℚ
  maxTimer : Nat
  deriving DecidableEq, Repr

/-- The kind of a scheduled callback. -/
inductive TimerKind where
  | debounce (lang : String)
  | maxWait (lang : String)
  deriving DecidableEq, Repr

/-- A scheduled `setTimeout` callback: its handle, absolute fire time and
what it does. -/
structure Timer where
  id : Nat
  fireAt : Nat
  kind : TimerKind
  deriving DecidableEq, Repr

/-- The `seq` field of an ingest body, as JavaScript sees it:
absent, a finite number, a non-finite number (`NaN`, `Infinity`), or a
value of some other type. -/
inductive SeqF where
  | undef
  | fin (q : ℚ)
  | nonFinite
  | nonNum
  deriving DecidableEq, Repr

/-- The `ttsRate` field of a visitor-settings body after `parseFloat`:
either a finite number or `NaN` (non-numeric input). -/
inductive RateField where
  | num (q : ℚ)
  | bad
  deriving DecidableEq, Repr

/-- The whole in-memory server state of `server.js`, plus the two
observation traces (`calls`, `pushLog`). -/
structure ServerState where
  sseClients : List (Nat × Client)
  globalEventId : Nat
  clientCounter : Nat
  totalChunksTranslated : Nat
  sessionLog : List LogEntry
  visitorSettings : List (String × ℚ)
  suggestedPresets : List (String × String)
  pendingByLang : List (String × PendingBatch)
  timerByLang : List (String × Nat)
  timers : List Timer
  nextTimerId : Nat
  now : Nat
  calls : List (String × String)
  pushLog : List (Nat × SseMsg)
  deriving DecidableEq, Repr

/-- The translation oracle: source text and target language to translated
text, `none` on upstream failure. -/
def Translator : Type := String → String → Option String

/-- First-match association-list lookup (`Map.get`). -/
def alookup {α β : Type} [DecidableEq α] (k : α) : List (α × β) → Option β
  | [] => none
  | (k', v) :: rest => if k' = k then some v else alookup k rest

/-- In-place association-list update (`Map.set`): overwrite the first
entry with the key, else append. -/
def aset {α β : Type} [DecidableEq α] (k : α) (v : β) : List (α × β) → List (α × β)
  | [] => [(k, v)]
  | (k', v') :: rest => if k' = k then (k, v) :: rest else (k', v') :: aset k v rest

/-- Association-list removal (`Map.delete`; keys are unique in every
reachable state, so removing all occurrences is the same operation). -/
def aerase {α β : Type} [DecidableEq α] (k : α) : List (α × β) → List (α × β)
  | [] => []
  | (k', v') :: rest => if k' = k then aerase k rest else (k', v') :: aerase k rest

/-- `clearTimeout`: drop the timer with the given handle. -/
def cancelT (tid : Nat) : List Timer → List Timer
  | [] => []
  | t :: rest => if t.id = tid then cancelT tid rest else t :: cancelT tid rest

/-- The validity test `server.js` applies to a provided `seq`:
absent, or a finite non-negative number. -/
def seqOk : SeqF → Bool
  | .undef => true
  | .fin q => decide (0 ≤ q)
  | .nonFinite => false
  | .nonNum => false

/-- The `seq` value stored into a batch (`undefined` stays absent). -/
def seqToOpt : SeqF → Option ℚ
  | .fin q => some q
  | _ => none

/-- One pass of the `broadcastToLang` loop over the client entries:
returns (number of successful sends, surviving entries, successful
pushes in iteration order). A client whose write throws is deleted and
iteration continues — the loop itself never throws. -/
def broadcastList (lk : String) (msg : SseMsg) :
    List (Nat × Client) → Nat × List (Nat × Client) × List (Nat × SseMsg)
  | [] => (0, [], [])
  | (cid, c) :: rest =>
    let r := broadcastList lk msg rest
    if c.lang = lk then
      if c.pushOk then (r.1 + 1, (cid, c) :: r.2.1, (cid, msg) :: r.2.2)
      else (r.1, r.2.1, r.2.2)
    else (r.1, (cid, c) :: r.2.1, r.2.2)

/-- `broadcastToLang` in `server.js`: deliver to every registered client of
the language, pruning clients whose write fails, and return the number of
successful deliveries. -/
def broadcastToLang (lk : String) (msg : SseMsg) (s : ServerState) : Nat × ServerState :=
  let r := broadcastList lk msg s.sseClients
  (r.1, { s with sseClients := r.2.1, pushLog := s.pushLog ++ r.2.2 })

/-- The Boolean test for a client entry the broadcast reaches. -/
def hitOk (lk : String) (p : Nat × Client) : Bool :=
  decide (p.2.lang = lk) && p.2.pushOk

/-- The Boolean test for a client entry the broadcast does not prune. -/
def keepB (lk : String) (p : Nat × Client) : Bool :=
  !(decide (p.2.lang = lk) && !p.2.pushOk)

/-- The session-log append of `flushLang`: `push` then `shift` when the
length exceeds 1000. -/
def push1000 (log : List LogEntry) (e : LogEntry) : List LogEntry :=
  let l := log ++ [e]
  if 1000 < l.length then l.tail else l

/-- `flushLang` in `server.js`: cancel the language's debounce timer,
atomically take its pending batch (no-op when absent), cancel the batch's
max-wait timer, join the fragments with single spaces, call the
translator, and on success append the log entry (FIFO-bounded at 1000),
bump the counter and broadcast the `chunk` event; on failure only log. -/
def flushLang (tr : Translator) (lk : String) (s : ServerState) : ServerState :=
  let s0 := match alookup lk s.timerByLang with
    | some deb => { s with timers := cancelT deb s.timers, timerByLang := aerase lk s.timerByLang }
    | none => s
  match alookup lk s0.pendingByLang with
  | none => s0
  | some batch =>
    let s1 := { s0 with pendingByLang := aerase lk s0.pendingByLang,
                        timers := cancelT batch.maxTimer s0.timers }
    let combined := String.intercalate " " batch.texts
    let s2 := { s1 with calls := s1.calls ++ [(lk, combined)] }
    match tr combined lk with
    | none => s2
    | some translated =>
      let s3 := { s2 with
        totalChunksTranslated := s2.totalChunksTranslated + 1,
        sessionLog := push1000 s2.sessionLog
          (LogEntry.mk s2.now batch.seq lk combined translated 0) }
      let gid := s3.globalEventId + 1
      let msg : SseMsg := ⟨some gid, "chunk", .chunk translated (batch.ts.getD s3.now) batch.seq⟩
      let r := broadcastToLang lk msg { s3 with globalEventId := gid }
      r.2

/-- The body of a `POST /ingest` request. `sourceText = none` models a
missing or non-string field; `lang = some ""` is falsy like a missing
language. -/
structure IngestReq where
  sourceText : Option String
  lang : Option String
  seq : SeqF
  ts : Option Nat
  deriving DecidableEq, Repr

/-- The response of `POST /ingest`: a 400 rejection with a reason, or the
immediate `ok:true` acknowledgement. -/
inductive IngestResp where
  | reject (status : Nat) (error : String)
  | okResp (hasReceiver : Bool) (clientCount : Nat) (accepted : Bool)
      (suggestedPreset : Option String)
  deriving DecidableEq, Repr

/-- `app.post('/ingest')` in `server.js`: validate, acknowledge
immediately, short-circuit when nobody listens, otherwise accumulate into
the language's pending batch (arming the max-wait timer on batch
creation) and restart the debounce timer. -/
def ingest (req : IngestReq) (s : ServerState) : IngestResp × ServerState :=
  match req.sourceText with
  | none => (.reject 400 "sourceText missing, empty, or too long (max 1000 chars)", s)
  | some st =>
    if st.length = 0 ∨ 1000 < st.length then
      (.reject 400 "sourceText missing, empty, or too long (max 1000 chars)", s)
    else match req.lang with
    | none => (.reject 400 "Missing lang", s)
    | some lang =>
      if lang = "" then (.reject 400 "Missing lang", s)
      else
        let lk := jsToLower lang
        if lk ∈ SUPPORTED_LANGS then
          if seqOk req.seq then
            let receiverCount := (s.sseClients.filter (fun p => decide (p.2.lang = lk))).length
            let hasReceiver := decide (0 < receiverCount)
            let resp := IngestResp.okResp hasReceiver receiverCount hasReceiver
              (alookup lang s.suggestedPresets)
            if hasReceiver then
              let s1 := match alookup lk s.pendingByLang with
                | none =>
                  let mId := s.nextTimerId
                  { s with
                    timers := s.timers ++ [Timer.mk mId (s.now + MAX_WAIT_MS) (.maxWait lk)],
                    nextTimerId := mId + 1,
                    pendingByLang := aset lk (PendingBatch.mk [st] req.ts (seqToOpt req.seq) mId) s.pendingByLang }
                | some b =>
                  let b' : PendingBatch :=
                    { b with texts := b.texts ++ [st],
                             seq := seqToOpt req.seq,
                             ts := if b.ts = none ∨ b.ts = some 0 then req.ts else b.ts }
                  { s with pendingByLang := aset lk b' s.pendingByLang }
              let s2 := match alookup lk s1.timerByLang with
                | some old => { s1 with timers := cancelT old s1.timers }
                | none => s1
              let dId := s2.nextTimerId
              (resp, { s2 with
                timerByLang := aset lk dId s2.timerByLang,
                timers := s2.timers ++ [Timer.mk dId (s.now + DEBOUNCE_MS) (.debounce lk)],
                nextTimerId := dId + 1 })
            else (resp, s)
          else (.reject 400 "Invalid seq: must be a non-negative number", s)
        else (.reject 400 ("Unsupported language: " ++ lk), s)

/-- The language a `GET /sse` connection registers under:
missing or empty query defaults to `en`, anything else is lowercased. -/
def normLang : Option String → String
  | none => "en"
  | some q => if q = "" then "en" else jsToLower q

/-- `app.get('/sse')` in `server.js`: register the client under the next
connection id, push `hello` with a fresh global event id, and replay the
stored visitor settings (without an id line) when present. A client whose
stream is broken receives nothing, but is still registered and the global
event id is still consumed. Returns the new client id. -/
def subscribe (langQ : Option String) (pushOk : Bool) (s : ServerState) : Nat × ServerState :=
  let lang := normLang langQ
  let cid := s.clientCounter + 1
  let s1 := { s with clientCounter := cid,
                     sseClients := s.sseClients ++ [(cid, Client.mk lang pushOk s.now)] }
  let gid := s1.globalEventId + 1
  let s2 := { s1 with globalEventId := gid }
  if pushOk then
    let s3 := { s2 with pushLog := s2.pushLog ++ [(cid, SseMsg.mk (some gid) "hello" (.hello lang cid))] }
    match alookup lang s3.visitorSettings with
    | some r => (cid, { s3 with pushLog := s3.pushLog ++ [(cid, SseMsg.mk none "settings" (.settings r))] })
    | none => (cid, s3)
  else (cid, s2)

/-- The response of `POST /visitor-settings`. -/
inductive SettingsResp where
  | err400 (msg : String)
  | okSent (sent : Nat)
  deriving DecidableEq, Repr

/-- `Math.min(2.0, Math.max(0.5, parseFloat(ttsRate) || 1.0))`:
non-numeric or zero input defaults to 1.0 before clamping. -/
def effectiveRate : RateField → ℚ
  | .bad => 1
  | .num q => min 2 (max (1/2) (if q = 0 then 1 else q))

/-- `app.post('/visitor-settings')` in `server.js`: store the clamped rate
for the lowercased language (latest write wins) and broadcast a `settings`
event with a fresh global event id to that language's subscribers. -/
def visitorSettingsPost (lang : Option String) (rate : RateField) (s : ServerState) :
    SettingsResp × ServerState :=
  match lang with
  | none => (.err400 "Missing lang", s)
  | some l =>
    if l = "" then (.err400 "Missing lang", s)
    else
      let lk := jsToLower l
      let r := effectiveRate rate
      let s1 := { s with visitorSettings := aset lk r s.visitorSettings }
      let gid := s1.globalEventId + 1
      let res := broadcastToLang lk ⟨some gid, "settings", .settings r⟩
        { s1 with globalEventId := gid }
      (.okSent res.1, res.2)

/-- `app.post('/preset-suggest')` in `server.js`: record the latest
suggestion per (raw) language when both fields are truthy. -/
def presetSuggest (lang preset : Option String) (s : ServerState) : ServerState :=
  match lang, preset with
  | some l, some p =>
    if l = "" ∨ p = "" then s
    else { s with suggestedPresets := aset l p s.suggestedPresets }
  | _, _ => s

/-- One heartbeat interval tick for a client (`server.js` lines 319-327):
push `ping` without an id line; when the write fails, deregister the
client instead. -/
def heartbeatTick (cid : Nat) (s : ServerState) : ServerState :=
  match alookup cid s.sseClients with
  | none => s
  | some c =>
    if c.pushOk then
      { s with pushLog := s.pushLog ++ [(cid, SseMsg.mk none "ping" (.ping s.now))] }
    else { s with sseClients := aerase cid s.sseClients }

/-- Earlier-timer preference used by the event loop model: by fire time,
ties broken by creation order of the handle. -/
def timerLe (a b : Timer) : Bool :=
  decide (a.fireAt < b.fireAt ∨ (a.fireAt = b.fireAt ∧ a.id ≤ b.id))

/-- The next timer the event loop would run, if any. -/
def selectNext : List Timer → Option Timer
  | [] => none
  | t :: rest =>
    match selectNext rest with
    | none => some t
    | some u => if timerLe t u then some t else some u

/-- Running one scheduled callback: the clock moves to its fire time, the
handle is consumed, and the callback body (`flushLang` for both timer
kinds) runs. -/
def fireTimer (tr : Translator) (t : Timer) (s : ServerState) : ServerState :=
  let s' := { s with now := t.fireAt, timers := cancelT t.id s.timers }
  match t.kind with
  | .debounce lk => flushLang tr lk s'
  | .maxWait lk => flushLang tr lk s'

/-- Fire every timer due at or before wall-clock time `t`, in event-loop
order (fuel-indexed; each step consumes at least one timer). -/
def runDueF (tr : Translator) (t : Nat) : Nat → ServerState → ServerState
  | 0, s => s
  | fuel + 1, s =>
    match selectNext s.timers with
    | none => s
    | some tm => if tm.fireAt ≤ t then runDueF tr t fuel (fireTimer tr tm s) else s

/-- Advance the wall clock to `t`, firing all timers due on the way. -/
def runDue (tr : Translator) (t : Nat) (s : ServerState) : ServerState :=
  { runDueF tr t s.timers.length s with now := t }

/-- Fire scheduled timers until none remain (fuel-indexed). -/
def runTimersF (tr : Translator) : Nat → ServerState → ServerState
  | 0, s => s
  | fuel + 1, s =>
    match selectNext s.timers with
    | none => s
    | some tm => runTimersF tr fuel (fireTimer tr tm s)

/-- Let the server go quiescent: fire every remaining timer in order. -/
def runTimersAll (tr : Translator) (s : ServerState) : ServerState :=
  runTimersF tr s.timers.length s

/-- One producer admission in a timed scenario: the fragment, the raw
`seq` and `ts` body fields, and the wall-clock arrival time. -/
structure Admission where
  frag : String
  seqF : SeqF
  ts : Option Nat
  time : Nat
  deriving DecidableEq, Repr

/-- Deliver one admission for language `L` at its arrival time: timers due
before the request fire first, then the ingest handler runs. -/
def admitAt (tr : Translator) (L : String) (a : Admission) (s : ServerState) : ServerState :=
  (ingest (IngestReq.mk (some a.frag) (some L) a.seqF a.ts) (runDue tr a.time s)).2

/-- A whole timed scenario: admit every fragment for language `L` at its
arrival time, then let the server go quiescent. -/
def runScenario (tr : Translator) (L : String) (l : List Admission) (s : ServerState) :
    ServerState :=
  runTimersAll tr (l.foldl (fun s a => admitAt tr L a s) s)

/-- The boundary operations that can touch the core state, for theorems
that quantify over arbitrary later activity. -/
inductive Op where
  | ingestOp (r : IngestReq)
  | subscribeOp (lang : Option String) (pushOk : Bool)
  | settingsOp (lang : Option String) (rate : RateField)
  | presetOp (lang preset : Option String)
  | flushOp (lang : String)
  | heartbeatOp (cid : Nat)
  | fireOp
  deriving Repr

/-- Interpretation of one boundary operation on the server state. -/
def applyOp (tr : Translator) : Op → ServerState → ServerState
  | .ingestOp r, s => (ingest r s).2
  | .subscribeOp l ok, s => (subscribe l ok s).2
  | .settingsOp l r, s => (visitorSettingsPost l r s).2
  | .presetOp l p, s => presetSuggest l p s
  | .flushOp l, s => flushLang tr l s
  | .heartbeatOp c, s => heartbeatTick c s
  | .fireOp, s =>
    match selectNext s.timers with
    | some t => fireTimer tr t s
    | none => s

/-- Interpretation of a sequence of boundary operations. -/
def applyOps (tr : Translator) (ops : List Op) (s : ServerState) : ServerState :=
  ops.foldl (fun s o => applyOp tr o s) s

/-- The empty server state at boot. -/
def initState : ServerState :=
  ServerState.mk [] 0 0 0 [] [] [] [] [] [] 0 0 [] []

/-! ## Fixtures for witness instantiations -/

/-- A translation oracle that always succeeds (tags its input). -/
def trW : Translator := fun src lk => some (lk ++ ": " ++ src)

/-- A translation oracle whose upstream call always fails. -/
def trF : Translator := fun _ _ => none

/-- A concrete pending batch of two fragments. -/
def wBatch : PendingBatch := PendingBatch.mk ["a", "b"] none none 7

/-- A concrete server state: one healthy English subscriber and one
pending English batch with its two timers armed. -/
def wState : ServerState :=
  { initState with
      sseClients := [(1, Client.mk "en" true 0)],
      clientCounter := 1,
      pendingByLang := [("en", wBatch)],
      timerByLang := [("en", 8)],
      timers := [Timer.mk 7 3100 (.maxWait "en"), Timer.mk 8 150 (.debounce "en")],
      nextTimerId := 9,
      now := 120 }

/-- The claim-side validity condition of an ingest request (C4): fragment
present, non-empty and at most 1000 units; language present and (after
the endpoint's case normalization) in the supported set; `seq`, when
provided, a finite non-negative number. -/
def validIngest (r : IngestReq) : Bool :=
  (match r.sourceText with
   | some st => decide (st.length ≠ 0 ∧ st.length ≤ 1000)
   | none => false) &&
  (match r.lang with
   | some l => decide (l ≠ "" ∧ jsToLower l ∈ SUPPORTED_LANGS)
   | none => false) &&
  seqOk r.seq


/-- The event ids carried by a push-log segment (events without an id
line contribute nothing). -/
def idsOf (log : List (Nat × SseMsg)) : List Nat := log.filterMap (fun p => p.2.id)

/-- The id-discipline invariant of the event stream: every id ever
pushed is at most the current global counter, and ids appear in
non-decreasing order in the global push log. -/
def idInv (s : ServerState) : Prop :=
  (∀ i ∈ idsOf s.pushLog, i ≤ s.globalEventId) ∧ List.Chain' (· ≤ ·) (idsOf s.pushLog)

/-- The wire messages a given client has received, in order. -/
def clientEvents (cid : Nat) (log : List (Nat × SseMsg)) : List SseMsg :=
  (log.filter (fun p => decide (p.1 = cid))).map (fun p => p.2)

/-- Well-formedness of the connection-id discipline: every client entry
and every logged push uses an id already handed out by the counter. -/
def WF (s : ServerState) : Prop :=
  (∀ p ∈ s.pushLog, p.1 ≤ s.clientCounter) ∧ (∀ c ∈ s.sseClients, c.1 ≤ s.clientCounter)


/-- A concrete operation sequence: set Italian settings, connect two
Italian subscribers, then update the settings (broadcast to both). -/
def c5Run : ServerState :=
  applyOps trW
    [.settingsOp (some "it") (.num (3/2)),
     .subscribeOp (some "it") true,
     .subscribeOp (some "it") true,
     .settingsOp (some "it") (.num 2)] initState


/-- Validity of one admission's body fields (the ingest precondition). -/
def validAdm (a : Admission) : Prop :=
  a.frag.length ≠ 0 ∧ a.frag.length ≤ 1000 ∧ seqOk a.seqF = true

/-- The arrival time of the last admission of `l` (`t` when `l` is empty). -/
def lastTime (t : Nat) (l : List Admission) : Nat :=
  l.foldl (fun _ a => a.time) t

/-- Two consecutive admission times within one debounce window:
non-decreasing and less than `DEBOUNCE_MS` apart. -/
def stepRel (x y : Nat) : Prop := x ≤ y ∧ y < x + DEBOUNCE_MS

instance (a : Admission) : Decidable (validAdm a) :=
  inferInstanceAs (Decidable (a.frag.length ≠ 0 ∧ a.frag.length ≤ 1000 ∧ seqOk a.seqF = true))

instance : DecidableRel stepRel := fun x y =>
  inferInstanceAs (Decidable (x ≤ y ∧ y < x + DEBOUNCE_MS))

/-- The state invariant while a single batch for language `L` is being
accumulated: exactly one pending batch holding the fragments so far with
its max-wait timer armed at the first admission plus `MAX_WAIT_MS`, one
debounce timer armed at the last admission plus `DEBOUNCE_MS`, fresh
distinct timer handles, no translator call yet, and unchanged clients. -/
def MidInv (s₀ : ServerState) (L : String) (fs : List String) (t1 tk : Nat)
    (s : ServerState) : Prop :=
  ∃ mId dId tsv seqv,
    s.pendingByLang = [(L, PendingBatch.mk fs tsv seqv mId)] ∧
    s.timerByLang = [(L, dId)] ∧
    s.timers = [Timer.mk mId (t1 + MAX_WAIT_MS) (.maxWait L),
                Timer.mk dId (tk + DEBOUNCE_MS) (.debounce L)] ∧
    mId ≠ dId ∧ mId < s.nextTimerId ∧ dId < s.nextTimerId ∧
    s.calls = [] ∧
    s.sseClients = s₀.sseClients ∧
    s.now = tk


/-- A quiescent server with a single healthy English subscriber. -/
def wSub : ServerState :=
  { initState with sseClients := [(1, Client.mk "en" true 0)], clientCounter := 1 }


/-! ## Basic lemmas about the container operations -/

theorem alookup_aerase {β : Type} (k : String) (l : List (String × β)) :
    alookup k (aerase k l) = none := by
  induction l with
  | nil => rfl
  | cons p rest ih =>
    obtain ⟨k', v⟩ := p
    by_cases h : k' = k
    · simp [aerase, h, ih]
    · simp [aerase, alookup, h, ih]

theorem alookup_aset_self {β : Type} (k : String) (v : β) (l : List (String × β)) :
    alookup k (aset k v l) = some v := by
  induction l with
  | nil => simp [aset, alookup]
  | cons p rest ih =>
    obtain ⟨k', v'⟩ := p
    by_cases h : k' = k
    · simp [aset, h, alookup]
    · simp [aset, alookup, h, ih]

theorem cancelT_eq_filter (tid : Nat) (l : List Timer) :
    cancelT tid l = l.filter (fun t => !(t.id = tid : Bool)) := by
  induction l with
  | nil => rfl
  | cons t rest ih =>
    by_cases h : t.id = tid <;> simp [cancelT, h, ih]

theorem push1000_length_le (log : List LogEntry) (e : LogEntry)
    (h : log.length ≤ 1000) : (push1000 log e).length ≤ 1000 := by
  unfold push1000
  by_cases hl : 1000 < (log ++ [e]).length
  · simp only [hl, if_true]
    simp only [List.length_append, List.length_singleton] at hl ⊢
    simp [List.length_tail]
    omega
  · simp only [hl, if_false]
    simp only [List.length_append, List.length_singleton] at hl ⊢
    omega

theorem push1000_of_lt (log : List LogEntry) (e : LogEntry)
    (h : log.length < 1000) : push1000 log e = log ++ [e] := by
  unfold push1000
  simp only [List.length_append, List.length_singleton]
  rw [if_neg (by omega)]

theorem push1000_of_full (log : List LogEntry) (e : LogEntry)
    (h : log.length = 1000) : push1000 log e = log.tail ++ [e] := by
  unfold push1000
  have h1 : 1000 < (log ++ [e]).length := by simp; omega
  have h2 : log ≠ [] := by
    intro hc; rw [hc] at h; simp at h
  simp only [h1, if_true]
  cases log with
  | nil => exact absurd rfl h2
  | cons a rest => simp

theorem foldl_push1000_small :
    ∀ (l : List LogEntry) (acc : List LogEntry), acc.length + l.length ≤ 1000 →
      l.foldl push1000 acc = acc ++ l := by
  intro l
  induction l with
  | nil => intro acc _; simp
  | cons e rest ih =>
    intro acc h
    simp only [List.length_cons] at h
    have he : push1000 acc e = acc ++ [e] := push1000_of_lt acc e (by omega)
    simp only [List.foldl_cons, he]
    rw [ih (acc ++ [e]) (by simp; omega)]
    simp

theorem foldl_push1000_1001 (es : List LogEntry) (h : es.length = 1001) :
    es.foldl push1000 [] = es.tail := by
  have hne : es ≠ [] := by intro hc; rw [hc] at h; simp at h
  have hdec := List.dropLast_append_getLast hne
  have hdl : es.dropLast.length = 1000 := by
    have := List.length_dropLast es
    omega
  have hdlne : es.dropLast ≠ [] := by
    intro hc; rw [hc] at hdl; simp at hdl
  conv_lhs => rw [← hdec]
  rw [List.foldl_append]
  rw [foldl_push1000_small es.dropLast [] (by simp [hdl])]
  simp only [List.nil_append, List.foldl_cons, List.foldl_nil]
  rw [push1000_of_full es.dropLast (es.getLast hne) hdl]
  conv_rhs => rw [← hdec]
  cases hc : es.dropLast with
  | nil => exact absurd hc hdlne
  | cons a rest => simp

/-! ## Characterization of the broadcast loop -/

theorem broadcastList_eq (lk : String) (msg : SseMsg) (cl : List (Nat × Client)) :
    broadcastList lk msg cl =
      ((cl.filter (hitOk lk)).length,
       cl.filter (keepB lk),
       (cl.filter (hitOk lk)).map (fun p => (p.1, msg))) := by
  induction cl with
  | nil => rfl
  | cons p rest ih =>
    obtain ⟨cid, c⟩ := p
    by_cases hl : c.lang = lk
    · by_cases ho : c.pushOk = true
      · simp [broadcastList, ih, hl, ho, hitOk, keepB]
      · simp only [Bool.not_eq_true] at ho
        simp [broadcastList, ih, hl, ho, hitOk, keepB]
    · simp [broadcastList, ih, hl, hitOk, keepB]

/-! ## Characterization of `flushLang` -/

/-- The exact result of `flushLang` when a pending batch exists: timers
cancelled, batch atomically removed, translator called on the joined
text; on success the log entry, counter and chunk broadcast follow. -/
theorem flushLang_found (tr : Translator) (lk : String) (s : ServerState) (b : PendingBatch)
    (hb : alookup lk s.pendingByLang = some b) :
    flushLang tr lk s =
      (let ts1 := match alookup lk s.timerByLang with
                  | some d => cancelT d s.timers
                  | none => s.timers
       let tbl1 := match alookup lk s.timerByLang with
                  | some _ => aerase lk s.timerByLang
                  | none => s.timerByLang
       let combined := String.intercalate " " b.texts
       let s2 : ServerState :=
         { s with timers := cancelT b.maxTimer ts1,
                  timerByLang := tbl1,
                  pendingByLang := aerase lk s.pendingByLang,
                  calls := s.calls ++ [(lk, combined)] }
       match tr combined lk with
       | none => s2
       | some t =>
         let s3 : ServerState :=
           { s2 with totalChunksTranslated := s2.totalChunksTranslated + 1,
                     sessionLog := push1000 s2.sessionLog (LogEntry.mk s.now b.seq lk combined t 0),
                     globalEventId := s.globalEventId + 1 }
         { s3 with sseClients := s.sseClients.filter (keepB lk),
                   pushLog := s.pushLog ++ (s.sseClients.filter (hitOk lk)).map
                     (fun p => (p.1, SseMsg.mk (some (s.globalEventId + 1)) "chunk"
                        (.chunk t (b.ts.getD s.now) b.seq))) }) := by
  cases ht : alookup lk s.timerByLang with
  | some d =>
    cases htr : tr (String.intercalate " " b.texts) lk with
    | none => simp [flushLang, ht, hb, htr]
    | some t => simp [flushLang, ht, hb, htr, broadcastToLang, broadcastList_eq]
  | none =>
    cases htr : tr (String.intercalate " " b.texts) lk with
    | none => simp [flushLang, ht, hb, htr]
    | some t => simp [flushLang, ht, hb, htr, broadcastToLang, broadcastList_eq]

/-- The exact result of `flushLang` when no pending batch exists: only the
stale debounce timer entry is cleared. -/
theorem flushLang_nobatch (tr : Translator) (lk : String) (s : ServerState)
    (hb : alookup lk s.pendingByLang = none) :
    flushLang tr lk s =
      match alookup lk s.timerByLang with
      | some d => { s with timers := cancelT d s.timers, timerByLang := aerase lk s.timerByLang }
      | none => s := by
  cases ht : alookup lk s.timerByLang with
  | some d => simp [flushLang, ht, hb]
  | none => simp [flushLang, ht, hb]

/-! ## Claim C2: flush idempotence -/

/-- C2: for a language `L` with a pending batch `b`, `flushLang` performs
the translator call exactly once, removes the batch, and running it a
second time finds no batch and is an exact no-op on the state. -/
theorem c2_flush_idempotent (tr : Translator) (s : ServerState) (L : String) (b : PendingBatch)
    (hb : alookup L s.pendingByLang = some b) :
    (flushLang tr L s).calls = s.calls ++ [(L, String.intercalate " " b.texts)] ∧
    alookup L (flushLang tr L s).pendingByLang = none ∧
    flushLang tr L (flushLang tr L s) = flushLang tr L s := by
  rw [flushLang_found tr L s b hb]
  cases ht : alookup L s.timerByLang with
  | none =>
    cases htr : tr (String.intercalate " " b.texts) L with
    | none =>
      simp only [ht, htr]
      refine ⟨trivial, alookup_aerase _ _, ?_⟩
      rw [flushLang_nobatch _ _ _ (alookup_aerase _ _)]
      simp [ht]
    | some t =>
      simp only [ht, htr]
      refine ⟨trivial, alookup_aerase _ _, ?_⟩
      rw [flushLang_nobatch _ _ _ (alookup_aerase _ _)]
      simp [ht]
  | some d =>
    cases htr : tr (String.intercalate " " b.texts) L with
    | none =>
      simp only [ht, htr]
      refine ⟨trivial, alookup_aerase _ _, ?_⟩
      rw [flushLang_nobatch _ _ _ (alookup_aerase _ _)]
      simp [alookup_aerase]
    | some t =>
      simp only [ht, htr]
      refine ⟨trivial, alookup_aerase _ _, ?_⟩
      rw [flushLang_nobatch _ _ _ (alookup_aerase _ _)]
      simp [alookup_aerase]

/-- Witness for C2 at a concrete state with one pending English batch. -/
theorem c2_flush_idempotent_witness :
    alookup "en" wState.pendingByLang = some wBatch ∧
    ((flushLang trW "en" wState).calls = wState.calls ++ [("en", String.intercalate " " wBatch.texts)] ∧
     alookup "en" (flushLang trW "en" wState).pendingByLang = none ∧
     flushLang trW "en" (flushLang trW "en" wState) = flushLang trW "en" wState) :=
  ⟨by decide, c2_flush_idempotent trW wState "en" wBatch (by decide)⟩

/-! ## Claim C7: broadcast resilience -/

/-- C7: the broadcast loop is total (the write failure of any subset of
subscribers is caught inside the loop, so it never throws); every
matching subscriber whose write fails is pruned from the registry while
delivery continues to the remaining entries unchanged, and the returned
count is exactly the number of successful deliveries. -/
theorem c7_broadcast_resilient (lk : String) (msg : SseMsg) (s : ServerState) :
    (broadcastToLang lk msg s).1 = (s.sseClients.filter (hitOk lk)).length ∧
    (broadcastToLang lk msg s).2 =
      { s with sseClients := s.sseClients.filter (keepB lk),
               pushLog := s.pushLog ++ (s.sseClients.filter (hitOk lk)).map (fun p => (p.1, msg)) } := by
  constructor
  · simp [broadcastToLang, broadcastList_eq]
  · simp [broadcastToLang, broadcastList_eq]

/-! ## Claim C8: dropped batch on translation failure -/

/-- C8: when the translator call for a flush fails, the only state change
is the already-removed pending batch (and its cancelled timers): no log
entry, no counter bump, no event pushed to any subscriber, no re-enqueue
of the batch, and the translator was tried exactly once. -/
theorem c8_translation_failure (tr : Translator) (s : ServerState) (L : String)
    (b : PendingBatch)
    (hb : alookup L s.pendingByLang = some b)
    (hfail : tr (String.intercalate " " b.texts) L = none) :
    (flushLang tr L s).sessionLog = s.sessionLog ∧
    (flushLang tr L s).totalChunksTranslated = s.totalChunksTranslated ∧
    (flushLang tr L s).pushLog = s.pushLog ∧
    (flushLang tr L s).sseClients = s.sseClients ∧
    (flushLang tr L s).globalEventId = s.globalEventId ∧
    (flushLang tr L s).visitorSettings = s.visitorSettings ∧
    (flushLang tr L s).pendingByLang = aerase L s.pendingByLang ∧
    alookup L (flushLang tr L s).pendingByLang = none ∧
    (flushLang tr L s).calls = s.calls ++ [(L, String.intercalate " " b.texts)] := by
  rw [flushLang_found tr L s b hb]
  cases ht : alookup L s.timerByLang with
  | none => simp [ht, hfail, alookup_aerase]
  | some d => simp [ht, hfail, alookup_aerase]

/-- Witness for C8 at a concrete state and a failing translator. -/
theorem c8_translation_failure_witness :
    alookup "en" wState.pendingByLang = some wBatch ∧
    trF (String.intercalate " " wBatch.texts) "en" = none ∧
    ((flushLang trF "en" wState).sessionLog = wState.sessionLog ∧
     (flushLang trF "en" wState).totalChunksTranslated = wState.totalChunksTranslated ∧
     (flushLang trF "en" wState).pushLog = wState.pushLog ∧
     (flushLang trF "en" wState).sseClients = wState.sseClients ∧
     (flushLang trF "en" wState).globalEventId = wState.globalEventId ∧
     (flushLang trF "en" wState).visitorSettings = wState.visitorSettings ∧
     (flushLang trF "en" wState).pendingByLang = aerase "en" wState.pendingByLang ∧
     alookup "en" (flushLang trF "en" wState).pendingByLang = none ∧
     (flushLang trF "en" wState).calls = wState.calls ++ [("en", String.intercalate " " wBatch.texts)]) :=
  ⟨by decide, rfl, c8_translation_failure trF wState "en" wBatch (by decide) rfl⟩

/-! ## Claim C6: bounded FIFO session log -/

/-- C6: `flushLang` keeps the session log at or below 1000 entries; a
successful flush appends exactly one entry through the bounded push; and
iterating the bounded push for 1001 entries from an empty log drops
exactly the first entry (FIFO), keeping the newest. -/
theorem c6_session_log_ring (tr : Translator) :
    (∀ lk s, s.sessionLog.length ≤ 1000 → (flushLang tr lk s).sessionLog.length ≤ 1000) ∧
    (∀ lk s b t, alookup lk s.pendingByLang = some b →
        tr (String.intercalate " " b.texts) lk = some t →
        (flushLang tr lk s).sessionLog =
          push1000 s.sessionLog (LogEntry.mk s.now b.seq lk (String.intercalate " " b.texts) t 0)) ∧
    (∀ es : List LogEntry, es.length = 1001 →
        es.foldl push1000 [] = es.tail ∧
        (es.Nodup → ∀ h : es ≠ [],
            es.head h ∉ es.foldl push1000 [] ∧ es.getLast h ∈ es.foldl push1000 [])) := by
  refine ⟨?_, ?_, ?_⟩
  · intro lk s hlen
    cases hb : alookup lk s.pendingByLang with
    | none =>
      rw [flushLang_nobatch tr lk s hb]
      cases ht : alookup lk s.timerByLang with
      | none => simp only [ht]; simpa using hlen
      | some d => simp only [ht]; simpa using hlen
    | some b =>
      rw [flushLang_found tr lk s b hb]
      cases ht : alookup lk s.timerByLang with
      | none =>
        cases htr : tr (String.intercalate " " b.texts) lk with
        | none => simp only [ht, htr]; simpa using hlen
        | some t => simp only [ht, htr]; simpa using push1000_length_le _ _ hlen
      | some d =>
        cases htr : tr (String.intercalate " " b.texts) lk with
        | none => simp only [ht, htr]; simpa using hlen
        | some t => simp only [ht, htr]; simpa using push1000_length_le _ _ hlen
  · intro lk s b t hb htr
    rw [flushLang_found tr lk s b hb]
    cases ht : alookup lk s.timerByLang with
    | none => simp [ht, htr]
    | some d => simp [ht, htr]
  · intro es hlen
    have htail := foldl_push1000_1001 es hlen
    refine ⟨htail, ?_⟩
    intro hnd h
    rw [htail]
    cases es with
    | nil => exact absurd rfl h
    | cons a rest =>
      simp only [List.head_cons, List.tail_cons]
      constructor
      · exact (List.nodup_cons.mp hnd).1
      · have hrne : rest ≠ [] := by
          intro hc
          rw [hc] at hlen
          simp at hlen
        rw [List.getLast_cons hrne]
        exact List.getLast_mem hrne

/-- Witness for C6: a successful flush of the concrete state appends its
entry through the bounded push. -/
theorem c6_session_log_ring_witness :
    alookup "en" wState.pendingByLang = some wBatch ∧
    trW (String.intercalate " " wBatch.texts) "en" = some "en: a b" ∧
    (flushLang trW "en" wState).sessionLog =
      push1000 wState.sessionLog
        (LogEntry.mk wState.now wBatch.seq "en" (String.intercalate " " wBatch.texts) "en: a b" 0) :=
  ⟨by decide, rfl, (c6_session_log_ring trW).2.1 "en" wState wBatch "en: a b" (by decide) rfl⟩

/-! ## Claim C4: ingest boundary validation -/

/-- C4: an ingest request is rejected with status 400, a non-empty reason
string and an untouched state exactly when the fragment is missing,
empty or over 1000 units, the language is missing or (case-normalized)
outside the supported set, or a provided `seq` is not a finite
non-negative number; every other request is acknowledged `ok:true`. -/
theorem c4_ingest_validation (req : IngestReq) (s : ServerState) :
    (validIngest req = false → ∃ e, e ≠ "" ∧ ingest req s = (.reject 400 e, s)) ∧
    (validIngest req = true →
      ∃ hr cc pre s2, ingest req s = (.okResp hr cc hr pre, s2)) := by
  obtain ⟨srcF, langF, seqF, tsF⟩ := req
  cases srcF with
  | none =>
    refine ⟨fun _ => ⟨"sourceText missing, empty, or too long (max 1000 chars)", ?_, ?_⟩,
            fun h => ?_⟩
    · decide
    · simp [ingest]
    · simp [validIngest] at h
  | some st =>
    by_cases hst : st.length = 0 ∨ 1000 < st.length
    · have hv : validIngest ⟨some st, langF, seqF, tsF⟩ = false := by
        simp only [validIngest, Bool.and_eq_false_iff]
        left; left
        simp only [decide_eq_false_iff_not]
        omega
      refine ⟨fun _ => ⟨"sourceText missing, empty, or too long (max 1000 chars)", ?_, ?_⟩,
              fun h => ?_⟩
      · decide
      · simp [ingest, hst]
      · rw [hv] at h; exact absurd h (by simp)
    · cases langF with
      | none =>
        refine ⟨fun _ => ⟨"Missing lang", ?_, ?_⟩, fun h => ?_⟩
        · decide
        · simp [ingest, hst]
        · simp [validIngest] at h
      | some l =>
        by_cases hl : l = ""
        · refine ⟨fun _ => ⟨"Missing lang", ?_, ?_⟩, fun h => ?_⟩
          · decide
          · simp [ingest, hst, hl]
          · simp [validIngest, hl] at h
        · by_cases hsup : jsToLower l ∈ SUPPORTED_LANGS
          · by_cases hseq : seqOk seqF = true
            · have hv : validIngest ⟨some st, some l, seqF, tsF⟩ = true := by
                simp [validIngest, hl, hsup, hseq]
                omega
              refine ⟨fun h => ?_, fun _ => ?_⟩
              · rw [hv] at h; exact absurd h (by simp)
              · by_cases hrc :
                  0 < ((s.sseClients.filter (fun p => decide (p.2.lang = jsToLower l))).length)
                · refine ⟨true, (s.sseClients.filter (fun p => decide (p.2.lang = jsToLower l))).length,
                    alookup l s.suggestedPresets, (ingest ⟨some st, some l, seqF, tsF⟩ s).2, ?_⟩
                  have h1 : (ingest ⟨some st, some l, seqF, tsF⟩ s).1 =
                      IngestResp.okResp true
                        ((s.sseClients.filter (fun p => decide (p.2.lang = jsToLower l))).length)
                        true (alookup l s.suggestedPresets) := by
                    simp [ingest, hst, hl, hsup, hseq, hrc]
                  have h2 : ingest ⟨some st, some l, seqF, tsF⟩ s =
                      ((ingest ⟨some st, some l, seqF, tsF⟩ s).1,
                       (ingest ⟨some st, some l, seqF, tsF⟩ s).2) := rfl
                  rw [h2, h1]
                · refine ⟨false, (s.sseClients.filter (fun p => decide (p.2.lang = jsToLower l))).length,
                    alookup l s.suggestedPresets, (ingest ⟨some st, some l, seqF, tsF⟩ s).2, ?_⟩
                  have h1 : (ingest ⟨some st, some l, seqF, tsF⟩ s).1 =
                      IngestResp.okResp false
                        ((s.sseClients.filter (fun p => decide (p.2.lang = jsToLower l))).length)
                        false (alookup l s.suggestedPresets) := by
                    simp [ingest, hst, hl, hsup, hseq, hrc]
                  have h2 : ingest ⟨some st, some l, seqF, tsF⟩ s =
                      ((ingest ⟨some st, some l, seqF, tsF⟩ s).1,
                       (ingest ⟨some st, some l, seqF, tsF⟩ s).2) := rfl
                  rw [h2, h1]
            · have hv : validIngest ⟨some st, some l, seqF, tsF⟩ = false := by
                simp [validIngest, hseq]
              refine ⟨fun _ => ⟨"Invalid seq: must be a non-negative number", ?_, ?_⟩, fun h => ?_⟩
              · decide
              · simp [ingest, hst, hl, hsup, hseq]
              · rw [hv] at h; exact absurd h (by simp)
          · refine ⟨fun _ => ⟨"Unsupported language: " ++ jsToLower l, ?_, ?_⟩, fun h => ?_⟩
            · intro hc
              have hlen := congrArg String.length hc
              rw [String.length_append] at hlen
              have h22 : "Unsupported language: ".length = 22 := rfl
              rw [h22] at hlen
              simp at hlen
            · simp [ingest, hst, hl, hsup]
            · simp [validIngest, hsup] at h

/-- Witness for C4 at a concrete invalid request (unsupported language). -/
theorem c4_ingest_validation_witness :
    validIngest (IngestReq.mk (some "hi") (some "xx") .undef none) = false ∧
    (∃ e, e ≠ "" ∧ ingest (IngestReq.mk (some "hi") (some "xx") .undef none) initState =
      (.reject 400 e, initState)) :=
  ⟨by decide,
   (c4_ingest_validation (IngestReq.mk (some "hi") (some "xx") .undef none) initState).1
     (by decide)⟩

/-! ## Claim C3: no-receiver short-circuit -/

/-- C3: a valid fragment admitted for a language with zero current
subscribers leaves the state exactly unchanged (no pending batch, no
timer, no translator call, no log entry) while still acknowledging
`ok:true` with `accepted:false`, `hasReceiver:false`, `clientCount:0`. -/
theorem c3_no_receiver (s : ServerState) (st l : String) (seqF : SeqF) (tsF : Option Nat)
    (h1 : st.length ≠ 0) (h2 : st.length ≤ 1000) (h3 : l ≠ "")
    (h4 : jsToLower l ∈ SUPPORTED_LANGS) (h5 : seqOk seqF = true)
    (h0 : (s.sseClients.filter (fun p => decide (p.2.lang = jsToLower l))).length = 0) :
    ingest (IngestReq.mk (some st) (some l) seqF tsF) s =
      (.okResp false 0 false (alookup l s.suggestedPresets), s) := by
  have hst : ¬(st.length = 0 ∨ 1000 < st.length) := by omega
  simp [ingest, hst, h3, h4, h5, h0]

/-- Witness for C3: a fragment for Italian with no subscribers. -/
theorem c3_no_receiver_witness :
    ("ciao".length ≠ 0 ∧ "ciao".length ≤ 1000 ∧ "it" ≠ "" ∧
     jsToLower "it" ∈ SUPPORTED_LANGS ∧ seqOk .undef = true ∧
     (wState.sseClients.filter (fun p => decide (p.2.lang = jsToLower "it"))).length = 0) ∧
    ingest (IngestReq.mk (some "ciao") (some "it") .undef none) wState =
      (.okResp false 0 false (alookup "it" wState.suggestedPresets), wState) :=
  ⟨⟨by decide, by decide, by decide, by decide, by decide, by decide⟩,
   c3_no_receiver wState "ciao" "it" .undef none (by decide) (by decide) (by decide)
     (by decide) (by decide) (by decide)⟩

/-! ## Field-preservation lemmas for the boundary operations -/

/-- The ingest handler never touches the registry, the counters, the
logs or the traces: it only responds and updates batches and timers. -/
theorem ingest_preserves (r : IngestReq) (s : ServerState) :
    (ingest r s).2.pushLog = s.pushLog ∧
    (ingest r s).2.sseClients = s.sseClients ∧
    (ingest r s).2.clientCounter = s.clientCounter ∧
    (ingest r s).2.globalEventId = s.globalEventId ∧
    (ingest r s).2.calls = s.calls ∧
    (ingest r s).2.sessionLog = s.sessionLog ∧
    (ingest r s).2.visitorSettings = s.visitorSettings ∧
    (ingest r s).2.totalChunksTranslated = s.totalChunksTranslated := by
  obtain ⟨srcF, langF, seqF, tsF⟩ := r
  cases srcF with
  | none => simp [ingest]
  | some st =>
    by_cases hst : st.length = 0 ∨ 1000 < st.length
    · simp [ingest, hst]
    · cases langF with
      | none => simp [ingest, hst]
      | some l =>
        by_cases hl : l = ""
        · simp [ingest, hst, hl]
        · by_cases hsup : jsToLower l ∈ SUPPORTED_LANGS
          · by_cases hseq : seqOk seqF = true
            · by_cases hrc :
                0 < (s.sseClients.filter (fun p => decide (p.2.lang = jsToLower l))).length
              · cases hpb : alookup (jsToLower l) s.pendingByLang with
                | none =>
                  cases htl : alookup (jsToLower l) s.timerByLang with
                  | none => simp [ingest, hst, hl, hsup, hseq, hrc, hpb, htl]
                  | some old => simp [ingest, hst, hl, hsup, hseq, hrc, hpb, htl]
                | some b =>
                  cases htl : alookup (jsToLower l) s.timerByLang with
                  | none => simp [ingest, hst, hl, hsup, hseq, hrc, hpb, htl]
                  | some old => simp [ingest, hst, hl, hsup, hseq, hrc, hpb, htl]
              · simp [ingest, hst, hl, hsup, hseq, hrc]
            · simp [ingest, hst, hl, hsup, hseq]
          · simp [ingest, hst, hl, hsup]

/-- The exact result of a successful `POST /visitor-settings`. -/
theorem visitorSettingsPost_some (l : String) (rate : RateField) (s : ServerState)
    (hl : l ≠ "") :
    visitorSettingsPost (some l) rate s =
      (.okSent ((s.sseClients.filter (hitOk (jsToLower l))).length),
       { s with visitorSettings := aset (jsToLower l) (effectiveRate rate) s.visitorSettings,
                globalEventId := s.globalEventId + 1,
                sseClients := s.sseClients.filter (keepB (jsToLower l)),
                pushLog := s.pushLog ++ (s.sseClients.filter (hitOk (jsToLower l))).map
                  (fun p => (p.1, SseMsg.mk (some (s.globalEventId + 1)) "settings"
                     (.settings (effectiveRate rate)))) }) := by
  simp [visitorSettingsPost, hl, broadcastToLang, broadcastList_eq]

/-- The exact result of a `GET /sse` connect on a healthy stream when
stored visitor settings exist for the language: register, `hello` with a
fresh id, then the id-less settings replay. -/
theorem subscribe_settings (q : Option String) (s : ServerState) (r : ℚ)
    (hr : alookup (normLang q) s.visitorSettings = some r) :
    subscribe q true s =
      (s.clientCounter + 1,
       { s with clientCounter := s.clientCounter + 1,
                sseClients := s.sseClients ++
                  [(s.clientCounter + 1, Client.mk (normLang q) true s.now)],
                globalEventId := s.globalEventId + 1,
                pushLog := s.pushLog ++
                  [(s.clientCounter + 1,
                    SseMsg.mk (some (s.globalEventId + 1)) "hello"
                      (.hello (normLang q) (s.clientCounter + 1))),
                   (s.clientCounter + 1, SseMsg.mk none "settings" (.settings r))] }) := by
  simp [subscribe, hr]

/-- The exact result of a `GET /sse` connect on a healthy stream when no
visitor settings are stored: register, then only the `hello` event. -/
theorem subscribe_nosettings (q : Option String) (s : ServerState)
    (hr : alookup (normLang q) s.visitorSettings = none) :
    subscribe q true s =
      (s.clientCounter + 1,
       { s with clientCounter := s.clientCounter + 1,
                sseClients := s.sseClients ++
                  [(s.clientCounter + 1, Client.mk (normLang q) true s.now)],
                globalEventId := s.globalEventId + 1,
                pushLog := s.pushLog ++
                  [(s.clientCounter + 1,
                    SseMsg.mk (some (s.globalEventId + 1)) "hello"
                      (.hello (normLang q) (s.clientCounter + 1)))] }) := by
  simp [subscribe, hr]

/-- `flushLang` only ever appends to the push log, and each appended push
goes to a client registered before the flush; the registry never grows
and the client counter is untouched. -/
theorem flushLang_obs (tr : Translator) (lk : String) (s : ServerState) :
    (flushLang tr lk s).clientCounter = s.clientCounter ∧
    (∃ ext, (flushLang tr lk s).pushLog = s.pushLog ++ ext ∧
        ∀ p ∈ ext, ∃ c, (p.1, c) ∈ s.sseClients) ∧
    ((flushLang tr lk s).sseClients = s.sseClients ∨
     (flushLang tr lk s).sseClients = s.sseClients.filter (keepB lk)) := by
  cases hb : alookup lk s.pendingByLang with
  | none =>
    rw [flushLang_nobatch tr lk s hb]
    cases ht : alookup lk s.timerByLang with
    | none => exact ⟨rfl, ⟨[], by simp⟩, Or.inl rfl⟩
    | some d => exact ⟨rfl, ⟨[], by simp⟩, Or.inl rfl⟩
  | some b =>
    rw [flushLang_found tr lk s b hb]
    cases ht : alookup lk s.timerByLang with
    | none =>
      cases htr : tr (String.intercalate " " b.texts) lk with
      | none => simp only [ht, htr]; exact ⟨trivial, ⟨[], by simp⟩, Or.inl trivial⟩
      | some t =>
        simp only [ht, htr]
        refine ⟨trivial, ⟨_, rfl, ?_⟩, Or.inr trivial⟩
        intro p hp
        simp only [List.mem_map] at hp
        obtain ⟨q, hq, rfl⟩ := hp
        exact ⟨q.2, by simpa using (List.mem_filter.mp hq).1⟩
    | some d =>
      cases htr : tr (String.intercalate " " b.texts) lk with
      | none => simp only [ht, htr]; exact ⟨trivial, ⟨[], by simp⟩, Or.inl trivial⟩
      | some t =>
        simp only [ht, htr]
        refine ⟨trivial, ⟨_, rfl, ?_⟩, Or.inr trivial⟩
        intro p hp
        simp only [List.mem_map] at hp
        obtain ⟨q, hq, rfl⟩ := hp
        exact ⟨q.2, by simpa using (List.mem_filter.mp hq).1⟩

/-- The exact result of a heartbeat tick for a registered client. -/
theorem heartbeatTick_found (cid : Nat) (s : ServerState) (c : Client)
    (hc : alookup cid s.sseClients = some c) :
    heartbeatTick cid s =
      (if c.pushOk then
        { s with pushLog := s.pushLog ++ [(cid, SseMsg.mk none "ping" (.ping s.now))] }
       else { s with sseClients := aerase cid s.sseClients }) := by
  simp [heartbeatTick, hc]

/-- Every boundary operation only appends to the push log. -/
theorem applyOp_pushLog (tr : Translator) (op : Op) (s : ServerState) :
    ∃ ext, (applyOp tr op s).pushLog = s.pushLog ++ ext := by
  cases op with
  | ingestOp r => exact ⟨[], by simp [applyOp, (ingest_preserves r s).1]⟩
  | subscribeOp q ok =>
    cases ok with
    | false => exact ⟨[], by simp [applyOp, subscribe]⟩
    | true =>
      cases hr : alookup (normLang q) s.visitorSettings with
      | none =>
        exact ⟨[(s.clientCounter + 1,
                 SseMsg.mk (some (s.globalEventId + 1)) "hello"
                   (.hello (normLang q) (s.clientCounter + 1)))],
               by simp [applyOp, subscribe_nosettings q s hr]⟩
      | some r =>
        exact ⟨[(s.clientCounter + 1,
                 SseMsg.mk (some (s.globalEventId + 1)) "hello"
                   (.hello (normLang q) (s.clientCounter + 1))),
                (s.clientCounter + 1, SseMsg.mk none "settings" (.settings r))],
               by simp [applyOp, subscribe_settings q s r hr]⟩
  | settingsOp q rate =>
    cases q with
    | none => exact ⟨[], by simp [applyOp, visitorSettingsPost]⟩
    | some l =>
      by_cases hl : l = ""
      · exact ⟨[], by simp [applyOp, visitorSettingsPost, hl]⟩
      · exact ⟨(s.sseClients.filter (hitOk (jsToLower l))).map
                 (fun p => (p.1, SseMsg.mk (some (s.globalEventId + 1)) "settings"
                    (.settings (effectiveRate rate)))),
               by simp [applyOp, visitorSettingsPost_some l rate s hl]⟩
  | presetOp lq pq =>
    cases lq with
    | none => exact ⟨[], by simp [applyOp, presetSuggest]⟩
    | some l =>
      cases pq with
      | none => exact ⟨[], by simp [applyOp, presetSuggest]⟩
      | some p =>
        by_cases hlp : l = "" ∨ p = ""
        · exact ⟨[], by simp [applyOp, presetSuggest, hlp]⟩
        · exact ⟨[], by simp [applyOp, presetSuggest, hlp]⟩
  | flushOp lk =>
    obtain ⟨-, ⟨ext, hext, -⟩, -⟩ := flushLang_obs tr lk s
    exact ⟨ext, by simpa [applyOp] using hext⟩
  | heartbeatOp cid =>
    cases hc : alookup cid s.sseClients with
    | none => exact ⟨[], by simp [applyOp, heartbeatTick, hc]⟩
    | some c =>
      cases hpo : c.pushOk with
      | false => exact ⟨[], by simp [applyOp, heartbeatTick, hc, hpo]⟩
      | true =>
        exact ⟨[(cid, SseMsg.mk none "ping" (.ping s.now))],
               by simp [applyOp, heartbeatTick, hc, hpo]⟩
  | fireOp =>
    cases hsel : selectNext s.timers with
    | none => exact ⟨[], by simp [applyOp, hsel]⟩
    | some t =>
      cases t with
      | mk tid tfire tkind =>
        cases tkind with
        | debounce lk =>
          obtain ⟨-, ⟨ext, hext, -⟩, -⟩ := flushLang_obs tr lk
            { s with now := tfire, timers := cancelT tid s.timers }
          exact ⟨ext, by simpa [applyOp, hsel, fireTimer] using hext⟩
        | maxWait lk =>
          obtain ⟨-, ⟨ext, hext, -⟩, -⟩ := flushLang_obs tr lk
            { s with now := tfire, timers := cancelT tid s.timers }
          exact ⟨ext, by simpa [applyOp, hsel, fireTimer] using hext⟩

/-- A sequence of boundary operations only appends to the push log. -/
theorem applyOps_pushLog (tr : Translator) (ops : List Op) :
    ∀ s : ServerState, ∃ ext, (applyOps tr ops s).pushLog = s.pushLog ++ ext := by
  induction ops with
  | nil => intro s; exact ⟨[], by simp [applyOps]⟩
  | cons op rest ih =>
    intro s
    obtain ⟨e1, h1⟩ := applyOp_pushLog tr op s
    obtain ⟨e2, h2⟩ := ih (applyOp tr op s)
    refine ⟨e1 ++ e2, ?_⟩
    have : applyOps tr (op :: rest) s = applyOps tr rest (applyOp tr op s) := by
      simp [applyOps]
    rw [this, h2, h1, List.append_assoc]

theorem clientEvents_append (cid : Nat) (a b : List (Nat × SseMsg)) :
    clientEvents cid (a ++ b) = clientEvents cid a ++ clientEvents cid b := by
  simp [clientEvents]

theorem clientEvents_nil_of_bound (cid n : Nat) (log : List (Nat × SseMsg))
    (hb : ∀ p ∈ log, p.1 ≤ n) (hn : n < cid) : clientEvents cid log = [] := by
  unfold clientEvents
  have : log.filter (fun p => decide (p.1 = cid)) = [] := by
    rw [List.filter_eq_nil_iff]
    intro p hp
    have := hb p hp
    simp only [decide_eq_true_eq]
    omega
  rw [this]
  rfl

/-! ## Claim C9 (corrected): visitor settings storage and replay -/

/-- C9 as literally stated is refuted by a zero rate: `parseFloat(0)` is
falsy, so the endpoint stores `1.0` where clamping `0` into `[0.5, 2.0]`
would give `0.5`. -/
theorem c9_counterexample :
    alookup "it" (visitorSettingsPost (some "it") (.num 0) initState).2.visitorSettings =
      some 1 ∧
    min 2 (max (1/2) (0 : ℚ)) = 1/2 ∧
    (1 : ℚ) ≠ 1/2 := by
  refine ⟨?_, by norm_num, by norm_num⟩
  simp [visitorSettingsPost, broadcastToLang, broadcastList_eq, effectiveRate, initState,
    aset, alookup]
  exact ⟨by decide, by norm_num⟩

/-- C9 (amended): a visitor-settings request with a language stores the
rate clamped to `[0.5, 2.0]` — with non-numeric or zero rates first
defaulting to `1.0` — latest write winning; it broadcasts a `settings`
event with the stored value to the language's current subscribers and
answers `ok` with the delivery count; and any subscriber connecting
while a stored value exists receives `hello` and then a `settings` event
with that value as its first two events, hence before any `chunk`. -/
theorem c9_amended (l : String) (rate : RateField) (s : ServerState) (hl : l ≠ "") :
    alookup (jsToLower l) (visitorSettingsPost (some l) rate s).2.visitorSettings =
      some (effectiveRate rate) ∧
    (visitorSettingsPost (some l) rate s).1 =
      .okSent ((s.sseClients.filter (hitOk (jsToLower l))).length) ∧
    (visitorSettingsPost (some l) rate s).2.pushLog =
      s.pushLog ++ (s.sseClients.filter (hitOk (jsToLower l))).map
        (fun p => (p.1, SseMsg.mk (some (s.globalEventId + 1)) "settings"
           (.settings (effectiveRate rate)))) ∧
    (∀ (tr : Translator) (s' : ServerState) (q : Option String) (ops : List Op) (v : ℚ),
        WF s' →
        alookup (normLang q) s'.visitorSettings = some v →
        (clientEvents (s'.clientCounter + 1)
            (applyOps tr ops (subscribe q true s').2).pushLog).take 2 =
          [SseMsg.mk (some (s'.globalEventId + 1)) "hello"
             (.hello (normLang q) (s'.clientCounter + 1)),
           SseMsg.mk none "settings" (.settings v)]) := by
  refine ⟨?_, ?_, ?_, ?_⟩
  · rw [visitorSettingsPost_some l rate s hl]
    exact alookup_aset_self _ _ _
  · rw [visitorSettingsPost_some l rate s hl]
  · rw [visitorSettingsPost_some l rate s hl]
  · intro tr s' q ops v hwf hv
    obtain ⟨ext, hext⟩ := applyOps_pushLog tr ops (subscribe q true s').2
    have hpl2 : (subscribe q true s').2.pushLog =
        s'.pushLog ++
          [(s'.clientCounter + 1,
            SseMsg.mk (some (s'.globalEventId + 1)) "hello"
              (.hello (normLang q) (s'.clientCounter + 1))),
           (s'.clientCounter + 1, SseMsg.mk none "settings" (.settings v))] := by
      rw [subscribe_settings q s' v hv]
    rw [hext, hpl2]
    rw [clientEvents_append, clientEvents_append]
    rw [clientEvents_nil_of_bound (s'.clientCounter + 1) s'.clientCounter s'.pushLog
      hwf.1 (Nat.lt_succ_self _)]
    simp [clientEvents]

/-- Witness for C9 (amended) at rate 3.0 for Italian: the stored value is
the clamp 2.0. -/
theorem c9_amended_witness :
    ("it" ≠ "") ∧
    alookup (jsToLower "it")
        (visitorSettingsPost (some "it") (.num 3) initState).2.visitorSettings =
      some (effectiveRate (.num 3)) ∧
    effectiveRate (.num 3) = 2 :=
  ⟨by decide, (c9_amended "it" (.num 3) initState (by decide)).1, by norm_num [effectiveRate]⟩

/-! ## Claim C10 (corrected): unvalidated subscribe language -/

/-- C10 as stated is refuted: a subscriber for the unsupported tag `xx`
does register, but ingest for `xx` is rejected by the supported-set
check, so no batch is ever enqueued for it and no translation (with or
without the English fallback) can be triggered through ingest. -/
theorem c10_counterexample :
    (subscribe (some "XX") true initState).2.sseClients = [(1, Client.mk "xx" true 0)] ∧
    ingest (IngestReq.mk (some "ciao") (some "xx") .undef none)
        (subscribe (some "XX") true initState).2 =
      (.reject 400 "Unsupported language: xx", (subscribe (some "XX") true initState).2) ∧
    (ingest (IngestReq.mk (some "ciao") (some "xx") .undef none)
        (subscribe (some "XX") true initState).2).2.pendingByLang = [] ∧
    (ingest (IngestReq.mk (some "ciao") (some "xx") .undef none)
        (subscribe (some "XX") true initState).2).2.calls = [] := by
  refine ⟨by decide, by decide, by decide, by decide⟩

/-- C10 (amended): subscribe validates nothing — a missing language
defaults to `en` and any string is registered after lowercasing, with
the subscriber counted in the registry — but ingest rejects every
unsupported language with a 400 and no state change, so such a
subscriber never causes a batch to be enqueued and the translator's
English fallback is unreachable through ingest. -/
theorem c10_amended (q : Option String) (ok : Bool) (s : ServerState) :
    ((subscribe q ok s).1 = s.clientCounter + 1 ∧
     (subscribe q ok s).2.sseClients =
       s.sseClients ++ [(s.clientCounter + 1, Client.mk (normLang q) ok s.now)]) ∧
    (∀ (req : IngestReq) (l : String), req.lang = some l → l ≠ "" →
        jsToLower l ∉ SUPPORTED_LANGS →
        ∃ e, ingest req s = (.reject 400 e, s)) := by
  constructor
  · cases ok with
    | false => exact ⟨by simp [subscribe], by simp [subscribe]⟩
    | true =>
      cases hr : alookup (normLang q) s.visitorSettings with
      | none => rw [subscribe_nosettings q s hr]; exact ⟨rfl, rfl⟩
      | some r => rw [subscribe_settings q s r hr]; exact ⟨rfl, rfl⟩
  · intro req l hlang hne hnsup
    obtain ⟨srcF, langF, seqF, tsF⟩ := req
    simp only at hlang
    subst hlang
    cases srcF with
    | none => exact ⟨"sourceText missing, empty, or too long (max 1000 chars)", by simp [ingest]⟩
    | some st =>
      by_cases hst : st.length = 0 ∨ 1000 < st.length
      · exact ⟨"sourceText missing, empty, or too long (max 1000 chars)", by simp [ingest, hst]⟩
      · exact ⟨"Unsupported language: " ++ jsToLower l, by simp [ingest, hst, hne, hnsup]⟩

/-- Witness for C10 (amended): the `XX` subscriber registers lowercased,
and English-fallback ingest for `xx` is rejected. -/
theorem c10_amended_witness :
    (((subscribe (some "XX") true initState).1 = initState.clientCounter + 1) ∧
     (IngestReq.mk (some "ciao") (some "xx") .undef none).lang = some "xx" ∧
     ("xx" : String) ≠ "" ∧ jsToLower "xx" ∉ SUPPORTED_LANGS) ∧
    (∃ e, ingest (IngestReq.mk (some "ciao") (some "xx") .undef none) initState =
      (.reject 400 e, initState)) :=
  ⟨⟨((c10_amended (some "XX") true initState).1).1, by decide, by decide, by decide⟩,
   (c10_amended (some "XX") true initState).2
     (IngestReq.mk (some "ciao") (some "xx") .undef none) "xx" rfl (by decide) (by decide)⟩

/-! ## Id discipline of the event stream -/

theorem idsOf_append (a b : List (Nat × SseMsg)) :
    idsOf (a ++ b) = idsOf a ++ idsOf b := by
  simp [idsOf]

theorem idsOf_map_some (i : Nat) (ev : String) (d : EventData) (l : List (Nat × Client)) :
    idsOf (l.map (fun p => (p.1, SseMsg.mk (some i) ev d))) = List.replicate l.length i := by
  induction l with
  | nil => rfl
  | cons p t ih => simp [idsOf, List.replicate] at ih ⊢; exact ih

theorem chain'_le_of_const (c : Nat) : ∀ l : List Nat,
    (∀ i ∈ l, i = c) → List.Chain' (· ≤ ·) l := by
  intro l
  induction l with
  | nil => intro _; simp
  | cons a t ih =>
    intro h
    cases t with
    | nil => simp
    | cons b t2 =>
      refine List.Chain'.cons ?_ (ih ?_)
      · rw [h a (by simp), h b (by simp)]
      · intro i hi; exact h i (List.mem_cons_of_mem _ hi)

/-- Extending the push log with events that all carry the (single) new
counter value preserves the id discipline. -/
theorem idInv_extend (s s' : ServerState) (ext : List (Nat × SseMsg))
    (hpl : s'.pushLog = s.pushLog ++ ext)
    (hg : s.globalEventId ≤ s'.globalEventId)
    (hids : ∀ i ∈ idsOf ext, i = s'.globalEventId ∧ s.globalEventId < i)
    (h : idInv s) : idInv s' := by
  obtain ⟨hb, hc⟩ := h
  constructor
  · intro i hi
    rw [hpl, idsOf_append] at hi
    rcases List.mem_append.mp hi with h' | h'
    · exact le_trans (hb i h') hg
    · exact le_of_eq (hids i h').1
  · rw [hpl, idsOf_append]
    rw [List.chain'_append]
    refine ⟨hc, chain'_le_of_const s'.globalEventId _ (fun i hi => (hids i hi).1), ?_⟩
    intro x hx y hy
    obtain ⟨hne, hxl⟩ := List.mem_getLast?_eq_getLast hx
    have hxmem : x ∈ idsOf s.pushLog := hxl ▸ List.getLast_mem hne
    have hymem : y ∈ idsOf ext := List.mem_of_mem_head? hy
    exact le_trans (hb x hxmem) (le_of_lt (hids y hymem).2)

theorem presetSuggest_obs (lq pq : Option String) (s : ServerState) :
    (presetSuggest lq pq s).pushLog = s.pushLog ∧
    (presetSuggest lq pq s).globalEventId = s.globalEventId := by
  cases lq with
  | none => simp [presetSuggest]
  | some l =>
    cases pq with
    | none => simp [presetSuggest]
    | some p =>
      by_cases hlp : l = "" ∨ p = "" <;> simp [presetSuggest, hlp]

/-- `flushLang` raises the counter by at most one and appends only
events that carry the fresh counter value. -/
theorem flushLang_ids (tr : Translator) (lk : String) (s : ServerState) :
    s.globalEventId ≤ (flushLang tr lk s).globalEventId ∧
    ∃ ext, (flushLang tr lk s).pushLog = s.pushLog ++ ext ∧
      ∀ i ∈ idsOf ext, i = (flushLang tr lk s).globalEventId ∧ s.globalEventId < i := by
  cases hb : alookup lk s.pendingByLang with
  | none =>
    rw [flushLang_nobatch tr lk s hb]
    cases ht : alookup lk s.timerByLang with
    | none => exact ⟨le_refl _, ⟨[], by simp, by simp [idsOf]⟩⟩
    | some d => exact ⟨le_refl _, ⟨[], by simp, by simp [idsOf]⟩⟩
  | some b =>
    rw [flushLang_found tr lk s b hb]
    cases ht : alookup lk s.timerByLang with
    | none =>
      cases htr : tr (String.intercalate " " b.texts) lk with
      | none => simp only [ht, htr]; exact ⟨le_refl _, ⟨[], by simp, by simp [idsOf]⟩⟩
      | some t =>
        simp only [ht, htr]
        refine ⟨Nat.le_succ _, ⟨_, rfl, ?_⟩⟩
        intro i hi
        rw [idsOf_map_some] at hi
        have := List.eq_of_mem_replicate hi
        subst this
        exact ⟨rfl, Nat.lt_succ_self _⟩
    | some d =>
      cases htr : tr (String.intercalate " " b.texts) lk with
      | none => simp only [ht, htr]; exact ⟨le_refl _, ⟨[], by simp, by simp [idsOf]⟩⟩
      | some t =>
        simp only [ht, htr]
        refine ⟨Nat.le_succ _, ⟨_, rfl, ?_⟩⟩
        intro i hi
        rw [idsOf_map_some] at hi
        have := List.eq_of_mem_replicate hi
        subst this
        exact ⟨rfl, Nat.lt_succ_self _⟩

/-! ## Claim C5 (corrected): global event ids -/

/-- C5 as literally stated is refuted by a concrete run: the connect-time
settings replay events carry no id at all, and one settings broadcast
delivers the same id (4) to both subscribers, so the ids over all pushed
events are neither all present nor strictly increasing. -/
theorem c5_counterexample :
    c5Run.pushLog.map (fun p => p.2.id) = [some 2, none, some 3, none, some 4, some 4] ∧
    (∃ p ∈ c5Run.pushLog, p.2.id = none) ∧
    idsOf c5Run.pushLog = [2, 3, 4, 4] ∧
    ¬ List.Chain' (fun a b => a < b) (idsOf c5Run.pushLog) := by
  refine ⟨by decide, by decide, by decide, ?_⟩
  intro hch
  rw [show idsOf c5Run.pushLog = [2, 3, 4, 4] from by decide] at hch
  simp [List.chain'_cons, List.chain'_singleton] at hch

/-- C5 (amended): hello, settings-update and chunk events draw their ids
from the single global counter; the counter never decreases, every
pushed id is at most the counter, and ids are non-decreasing along the
global push log (all events of one broadcast share the fresh counter
value); ping and connect-time settings-replay events carry no id. Every
boundary operation preserves this discipline. -/
theorem c5_amended (tr : Translator) (op : Op) (s : ServerState) (h : idInv s) :
    idInv (applyOp tr op s) ∧ s.globalEventId ≤ (applyOp tr op s).globalEventId := by
  cases op with
  | ingestOp r =>
    obtain ⟨h1, h2, h3, h4, -⟩ := ingest_preserves r s
    exact ⟨idInv_extend s _ [] (by rw [List.append_nil]; exact h1) (le_of_eq h4.symm)
      (by simp [idsOf]) h, le_of_eq h4.symm⟩
  | subscribeOp q ok =>
    cases ok with
    | false =>
      have hpl : (applyOp tr (.subscribeOp q false) s).pushLog = s.pushLog := by
        simp [applyOp, subscribe]
      have hg : (applyOp tr (.subscribeOp q false) s).globalEventId = s.globalEventId + 1 := by
        simp [applyOp, subscribe]
      exact ⟨idInv_extend s _ [] (by rw [List.append_nil]; exact hpl)
        (by rw [hg]; exact Nat.le_succ _) (by simp [idsOf]) h,
        by rw [hg]; exact Nat.le_succ _⟩
    | true =>
      cases hr : alookup (normLang q) s.visitorSettings with
      | none =>
        rw [applyOp, subscribe_nosettings q s hr]
        refine ⟨idInv_extend s _
          [(s.clientCounter + 1, SseMsg.mk (some (s.globalEventId + 1)) "hello"
             (.hello (normLang q) (s.clientCounter + 1)))] rfl (Nat.le_succ _) ?_ h,
          Nat.le_succ _⟩
        intro i hi
        simp [idsOf] at hi
        subst hi
        exact ⟨rfl, Nat.lt_succ_self _⟩
      | some r =>
        rw [applyOp, subscribe_settings q s r hr]
        refine ⟨idInv_extend s _
          [(s.clientCounter + 1, SseMsg.mk (some (s.globalEventId + 1)) "hello"
             (.hello (normLang q) (s.clientCounter + 1))),
           (s.clientCounter + 1, SseMsg.mk none "settings" (.settings r))] rfl
          (Nat.le_succ _) ?_ h, Nat.le_succ _⟩
        intro i hi
        simp [idsOf] at hi
        subst hi
        exact ⟨rfl, Nat.lt_succ_self _⟩
  | settingsOp q rate =>
    cases q with
    | none =>
      exact ⟨idInv_extend s _ [] (by rw [List.append_nil]; simp [applyOp, visitorSettingsPost])
        (by simp [applyOp, visitorSettingsPost]) (by simp [idsOf]) h,
        by simp [applyOp, visitorSettingsPost]⟩
    | some l =>
      by_cases hl : l = ""
      · exact ⟨idInv_extend s _ []
          (by rw [List.append_nil]; simp [applyOp, visitorSettingsPost, hl])
          (by simp [applyOp, visitorSettingsPost, hl]) (by simp [idsOf]) h,
          by simp [applyOp, visitorSettingsPost, hl]⟩
      · rw [applyOp, visitorSettingsPost_some l rate s hl]
        refine ⟨idInv_extend s _ _ rfl (Nat.le_succ _) ?_ h, Nat.le_succ _⟩
        intro i hi
        rw [idsOf_map_some] at hi
        have := List.eq_of_mem_replicate hi
        subst this
        exact ⟨rfl, Nat.lt_succ_self _⟩
  | presetOp lq pq =>
    obtain ⟨h1, h2⟩ := presetSuggest_obs lq pq s
    exact ⟨idInv_extend s _ [] (by rw [List.append_nil]; exact h1) (le_of_eq h2.symm)
      (by simp [idsOf]) h, le_of_eq h2.symm⟩
  | flushOp lk =>
    obtain ⟨hg, ext, hpl, hids⟩ := flushLang_ids tr lk s
    exact ⟨idInv_extend s _ ext hpl hg hids h, hg⟩
  | heartbeatOp cid =>
    cases hc : alookup cid s.sseClients with
    | none =>
      have : applyOp tr (.heartbeatOp cid) s = s := by simp [applyOp, heartbeatTick, hc]
      rw [this]
      exact ⟨h, le_refl _⟩
    | some c =>
      rw [applyOp, heartbeatTick_found cid s c hc]
      cases hpo : c.pushOk with
      | false =>
        simp only [hpo, if_false, Bool.false_eq_true]
        exact ⟨idInv_extend s _ [] (by rw [List.append_nil]) (le_refl _) (by simp [idsOf]) h,
          le_refl _⟩
      | true =>
        simp only [hpo, if_true]
        refine ⟨idInv_extend s _ [(cid, SseMsg.mk none "ping" (.ping s.now))] rfl (le_refl _)
          ?_ h, le_refl _⟩
        intro i hi
        simp [idsOf] at hi
  | fireOp =>
    cases hsel : selectNext s.timers with
    | none =>
      have : applyOp tr .fireOp s = s := by simp [applyOp, hsel]
      rw [this]
      exact ⟨h, le_refl _⟩
    | some t =>
      have happ : applyOp tr .fireOp s = fireTimer tr t s := by simp [applyOp, hsel]
      rw [happ]
      obtain ⟨tid, tfire, tkind⟩ := t
      cases tkind with
      | debounce lk =>
        obtain ⟨hg, ext, hpl, hids⟩ :=
          flushLang_ids tr lk { s with now := tfire, timers := cancelT tid s.timers }
        exact ⟨idInv_extend s _ ext hpl hg hids h, hg⟩
      | maxWait lk =>
        obtain ⟨hg, ext, hpl, hids⟩ :=
          flushLang_ids tr lk { s with now := tfire, timers := cancelT tid s.timers }
        exact ⟨idInv_extend s _ ext hpl hg hids h, hg⟩

/-- Witness for C5 (amended): one subscribe step on the empty state
preserves the id discipline. -/
theorem c5_amended_witness :
    idInv initState ∧
    (idInv (applyOp trW (.subscribeOp (some "it") true) initState) ∧
     initState.globalEventId ≤
       (applyOp trW (.subscribeOp (some "it") true) initState).globalEventId) :=
  ⟨⟨by simp [idsOf, initState], by simp [idsOf, initState]⟩,
   c5_amended trW (.subscribeOp (some "it") true) initState
     ⟨by simp [idsOf, initState], by simp [idsOf, initState]⟩⟩

/-! ## Timed-run lemmas for the debounce pipeline -/

theorem supported_lower (L : String) (h : L ∈ SUPPORTED_LANGS) : jsToLower L = L := by
  simp only [SUPPORTED_LANGS, List.mem_cons, List.mem_singleton, List.not_mem_nil,
    or_false] at h
  rcases h with rfl | rfl | rfl | rfl | rfl | rfl | rfl | rfl | rfl | rfl | rfl <;> decide

theorem selectNext_mem : ∀ (l : List Timer) (t : Timer), selectNext l = some t → t ∈ l := by
  intro l
  induction l with
  | nil => intro t h; simp [selectNext] at h
  | cons a rest ih =>
    intro t h
    simp only [selectNext] at h
    cases hr : selectNext rest with
    | none => rw [hr] at h; simp at h; subst h; exact List.mem_cons_self _ _
    | some u =>
      rw [hr] at h
      by_cases hle : timerLe a u = true
      · simp [hle] at h; subst h; exact List.mem_cons_self _ _
      · simp [hle] at h; subst h; exact List.mem_cons_of_mem _ (ih u hr)

theorem runDueF_no_due (tr : Translator) (t : Nat) :
    ∀ (fuel : Nat) (s : ServerState), (∀ tm ∈ s.timers, t < tm.fireAt) →
      runDueF tr t fuel s = s := by
  intro fuel
  induction fuel with
  | zero => intro s _; rfl
  | succ n ih =>
    intro s hdue
    simp only [runDueF]
    cases hsel : selectNext s.timers with
    | none => rfl
    | some tm =>
      have hlt := hdue tm (selectNext_mem s.timers tm hsel)
      dsimp only
      rw [if_neg (by omega)]

theorem runDue_no_due (tr : Translator) (t : Nat) (s : ServerState)
    (hdue : ∀ tm ∈ s.timers, t < tm.fireAt) :
    runDue tr t s = { s with now := t } := by
  unfold runDue
  rw [runDueF_no_due tr t s.timers.length s hdue]

theorem le_lastTime (t0 : Nat) : ∀ (l : List Admission),
    List.Chain stepRel t0 (l.map (fun a => a.time)) →
    t0 ≤ lastTime t0 l ∧ ∀ a ∈ l, a.time ≤ lastTime t0 l := by
  intro l
  induction l generalizing t0 with
  | nil => intro _; exact ⟨le_refl _, by simp⟩
  | cons a rest ih =>
    intro hch
    rw [List.map_cons, List.chain_cons] at hch
    obtain ⟨⟨h1, -⟩, hch'⟩ := hch
    obtain ⟨ih1, ih2⟩ := ih a.time hch'
    have hlast : lastTime t0 (a :: rest) = lastTime a.time rest := by
      simp [lastTime]
    refine ⟨by omega, ?_⟩
    intro x hx
    rcases List.mem_cons.mp hx with rfl | hx'
    · rw [hlast]; omega
    · rw [hlast]; exact ih2 x hx'

/-- The exact state after an accepted admission that opens a new batch:
max-wait timer armed, batch created, debounce timer armed. -/
theorem ingest_fresh (s : ServerState) (L st : String) (seqF : SeqF) (tsF : Option Nat)
    (hLlow : jsToLower L = L) (hsup : L ∈ SUPPORTED_LANGS)
    (hst1 : st.length ≠ 0) (hst2 : st.length ≤ 1000) (hseq : seqOk seqF = true)
    (hrc : 0 < (s.sseClients.filter (fun p => decide (p.2.lang = L))).length)
    (hpb : alookup L s.pendingByLang = none)
    (htl : alookup L s.timerByLang = none) :
    (ingest (IngestReq.mk (some st) (some L) seqF tsF) s).2 =
      { s with
          pendingByLang :=
            aset L (PendingBatch.mk [st] tsF (seqToOpt seqF) s.nextTimerId) s.pendingByLang,
          timerByLang := aset L (s.nextTimerId + 1) s.timerByLang,
          timers := (s.timers ++ [Timer.mk s.nextTimerId (s.now + MAX_WAIT_MS) (.maxWait L)])
            ++ [Timer.mk (s.nextTimerId + 1) (s.now + DEBOUNCE_MS) (.debounce L)],
          nextTimerId := s.nextTimerId + 2 } := by
  have hL : L ≠ "" := by
    intro hc
    subst hc
    exact absurd hsup (by decide)
  have hst : ¬(st.length = 0 ∨ 1000 < st.length) := by omega
  simp [ingest, hst, hL, hLlow, hsup, hseq, hrc, hpb, htl]

/-- The exact state after an accepted admission that extends an existing
batch: fragment appended, `seq` overwritten, old debounce timer
cancelled and a fresh one armed. -/
theorem ingest_accum (s : ServerState) (L st : String) (seqF : SeqF) (tsF : Option Nat)
    (b : PendingBatch) (dId : Nat)
    (hLlow : jsToLower L = L) (hsup : L ∈ SUPPORTED_LANGS)
    (hst1 : st.length ≠ 0) (hst2 : st.length ≤ 1000) (hseq : seqOk seqF = true)
    (hrc : 0 < (s.sseClients.filter (fun p => decide (p.2.lang = L))).length)
    (hpb : alookup L s.pendingByLang = some b)
    (htl : alookup L s.timerByLang = some dId) :
    (ingest (IngestReq.mk (some st) (some L) seqF tsF) s).2 =
      { s with
          pendingByLang :=
            aset L (PendingBatch.mk (b.texts ++ [st])
              (if b.ts = none ∨ b.ts = some 0 then tsF else b.ts)
              (seqToOpt seqF) b.maxTimer) s.pendingByLang,
          timerByLang := aset L s.nextTimerId s.timerByLang,
          timers := cancelT dId s.timers ++
            [Timer.mk s.nextTimerId (s.now + DEBOUNCE_MS) (.debounce L)],
          nextTimerId := s.nextTimerId + 1 } := by
  have hL : L ≠ "" := by
    intro hc
    subst hc
    exact absurd hsup (by decide)
  have hst : ¬(st.length = 0 ∨ 1000 < st.length) := by omega
  simp [ingest, hst, hL, hLlow, hsup, hseq, hrc, hpb, htl]

/-- Firing either of the two armed timers of a mid-accumulation state
flushes the batch: the translator is called once on the joined
fragments and both timers are gone. -/
theorem fireTimer_flush (tr : Translator) (s₀ : ServerState) (L : String) (fs : List String)
    (t1 tk : Nat) (s : ServerState) (hinv : MidInv s₀ L fs t1 tk s) :
    ∀ t ∈ s.timers,
      (fireTimer tr t s).calls = [(L, String.intercalate " " fs)] ∧
      (fireTimer tr t s).timers = [] := by
  obtain ⟨mId, dId, tsv, seqv, hpb, htl, htim, hne, hm, hd, hcalls, hcli, hnow⟩ := hinv
  intro t ht
  rw [htim] at ht
  simp only [List.mem_cons, List.mem_singleton, List.not_mem_nil, or_false] at ht
  rcases ht with rfl | rfl
  · -- the max-wait timer fires
    show (flushLang tr L { s with now := t1 + MAX_WAIT_MS, timers := cancelT mId s.timers }).calls
        = [(L, String.intercalate " " fs)] ∧
      (flushLang tr L { s with now := t1 + MAX_WAIT_MS, timers := cancelT mId s.timers }).timers
        = []
    have hb' : alookup L
        ({ s with now := t1 + MAX_WAIT_MS, timers := cancelT mId s.timers } : ServerState).pendingByLang =
        some (PendingBatch.mk fs tsv seqv mId) := by
      show alookup L s.pendingByLang = _
      rw [hpb]; simp [alookup]
    rw [flushLang_found tr L _ _ hb']
    have ht' : alookup L
        ({ s with now := t1 + MAX_WAIT_MS, timers := cancelT mId s.timers } : ServerState).timerByLang =
        some dId := by
      show alookup L s.timerByLang = _
      rw [htl]; simp [alookup]
    have hct : cancelT mId (cancelT dId (cancelT mId s.timers)) = [] := by
      rw [htim]; simp [cancelT, hne, Ne.symm hne]
    cases htr : tr (String.intercalate " " fs) L with
    | none => simp [ht', htr, hcalls, hct]
    | some tx => simp [ht', htr, hcalls, hct]
  · -- the debounce timer fires
    show (flushLang tr L { s with now := tk + DEBOUNCE_MS, timers := cancelT dId s.timers }).calls
        = [(L, String.intercalate " " fs)] ∧
      (flushLang tr L { s with now := tk + DEBOUNCE_MS, timers := cancelT dId s.timers }).timers
        = []
    have hb' : alookup L
        ({ s with now := tk + DEBOUNCE_MS, timers := cancelT dId s.timers } : ServerState).pendingByLang =
        some (PendingBatch.mk fs tsv seqv mId) := by
      show alookup L s.pendingByLang = _
      rw [hpb]; simp [alookup]
    rw [flushLang_found tr L _ _ hb']
    have ht' : alookup L
        ({ s with now := tk + DEBOUNCE_MS, timers := cancelT dId s.timers } : ServerState).timerByLang =
        some dId := by
      show alookup L s.timerByLang = _
      rw [htl]; simp [alookup]
    have hct : cancelT mId (cancelT dId (cancelT dId s.timers)) = [] := by
      rw [htim]; simp [cancelT, hne, Ne.symm hne]
    cases htr : tr (String.intercalate " " fs) L with
    | none => simp [ht', htr, hcalls, hct]
    | some tx => simp [ht', htr, hcalls, hct]

/-- Letting a mid-accumulation state go quiescent performs exactly one
translator call, on the joined fragments. -/
theorem runTimers_flush (tr : Translator) (s₀ : ServerState) (L : String) (fs : List String)
    (t1 tk : Nat) (s : ServerState) (hinv : MidInv s₀ L fs t1 tk s) :
    (runTimersAll tr s).calls = [(L, String.intercalate " " fs)] := by
  have hkey := fireTimer_flush tr s₀ L fs t1 tk s hinv
  obtain ⟨mId, dId, tsv, seqv, hpb, htl, htim, hne, hm, hd, hcalls, hcli, hnow⟩ := hinv
  have hlen : s.timers.length = 2 := by rw [htim]; rfl
  unfold runTimersAll
  rw [hlen]
  have hsel : ∃ tm, selectNext s.timers = some tm ∧ tm ∈ s.timers := by
    rw [htim]
    simp only [selectNext]
    by_cases hle : timerLe (Timer.mk mId (t1 + MAX_WAIT_MS) (.maxWait L))
        (Timer.mk dId (tk + DEBOUNCE_MS) (.debounce L)) = true
    · exact ⟨_, by rw [if_pos hle], by simp⟩
    · exact ⟨_, by rw [if_neg hle], by simp⟩
  obtain ⟨tm, hsel, hmem⟩ := hsel
  obtain ⟨hc1, hc2⟩ := hkey tm hmem
  show (runTimersF tr (Nat.succ (Nat.succ 0)) s).calls = [(L, String.intercalate " " fs)]
  rw [runTimersF, hsel]
  dsimp only
  rw [runTimersF, hc2]
  dsimp only [selectNext]
  exact hc1

/-- Processing further admissions inside the debounce window preserves
the mid-accumulation invariant, appending each fragment in order. -/
theorem c1_steps (tr : Translator) (s₀ : ServerState) (L : String)
    (hcl : 0 < (s₀.sseClients.filter (fun p => decide (p.2.lang = L))).length)
    (hLlow : jsToLower L = L) (hsup : L ∈ SUPPORTED_LANGS) :
    ∀ (rest : List Admission) (fs : List String) (t1 tk : Nat) (s : ServerState),
      MidInv s₀ L fs t1 tk s →
      List.Chain stepRel tk (rest.map (fun a => a.time)) →
      (∀ a ∈ rest, validAdm a ∧ a.time < t1 + MAX_WAIT_MS) →
      MidInv s₀ L (fs ++ rest.map (fun a => a.frag)) t1 (lastTime tk rest)
        (rest.foldl (fun s a => admitAt tr L a s) s) := by
  intro rest
  induction rest with
  | nil =>
    intro fs t1 tk s hinv _ _
    simpa [lastTime] using hinv
  | cons a rest' ih =>
    intro fs t1 tk s hinv hch hok
    rw [List.map_cons, List.chain_cons] at hch
    obtain ⟨⟨hta, htb⟩, hch'⟩ := hch
    obtain ⟨⟨hv1, hv2, hv3⟩, hspan⟩ := hok a (List.mem_cons_self _ _)
    obtain ⟨mId, dId, tsv, seqv, hpb, htl, htim, hne, hm, hd, hcalls, hcli, hnow⟩ := hinv
    -- the admission arrives before either timer fires
    have hdue : ∀ tm ∈ s.timers, a.time < tm.fireAt := by
      intro tm htm
      rw [htim] at htm
      simp only [List.mem_cons, List.mem_singleton, List.not_mem_nil, or_false] at htm
      rcases htm with rfl | rfl
      · simpa using hspan
      · simp only []
        omega
    have hstep : admitAt tr L a s =
        (ingest (IngestReq.mk (some a.frag) (some L) a.seqF a.ts)
          { s with now := a.time }).2 := by
      unfold admitAt
      rw [runDue_no_due tr a.time s hdue]
    have hrc' : 0 < (({ s with now := a.time } : ServerState).sseClients.filter
        (fun p => decide (p.2.lang = L))).length := by
      show 0 < (s.sseClients.filter (fun p => decide (p.2.lang = L))).length
      rw [hcli]; exact hcl
    have hpb' : alookup L ({ s with now := a.time } : ServerState).pendingByLang =
        some (PendingBatch.mk fs tsv seqv mId) := by
      show alookup L s.pendingByLang = _
      rw [hpb]; simp [alookup]
    have htl' : alookup L ({ s with now := a.time } : ServerState).timerByLang = some dId := by
      show alookup L s.timerByLang = _
      rw [htl]; simp [alookup]
    rw [List.foldl_cons, hstep,
      ingest_accum _ L a.frag a.seqF a.ts _ dId hLlow hsup hv1 hv2 hv3 hrc' hpb' htl']
    have hinv' : MidInv s₀ L (fs ++ [a.frag]) t1 a.time
        ({ { s with now := a.time } with
            pendingByLang :=
              aset L (PendingBatch.mk ((PendingBatch.mk fs tsv seqv mId).texts ++ [a.frag])
                (if (PendingBatch.mk fs tsv seqv mId).ts = none ∨
                    (PendingBatch.mk fs tsv seqv mId).ts = some 0 then a.ts
                 else (PendingBatch.mk fs tsv seqv mId).ts)
                (seqToOpt a.seqF) (PendingBatch.mk fs tsv seqv mId).maxTimer)
                ({ s with now := a.time } : ServerState).pendingByLang,
            timerByLang := aset L ({ s with now := a.time } : ServerState).nextTimerId
              ({ s with now := a.time } : ServerState).timerByLang,
            timers := cancelT dId ({ s with now := a.time } : ServerState).timers ++
              [Timer.mk ({ s with now := a.time } : ServerState).nextTimerId
                (({ s with now := a.time } : ServerState).now + DEBOUNCE_MS) (.debounce L)],
            nextTimerId := ({ s with now := a.time } : ServerState).nextTimerId + 1 }) := by
      refine ⟨mId, s.nextTimerId, (if tsv = none ∨ tsv = some 0 then a.ts else tsv),
        seqToOpt a.seqF, ?_, ?_, ?_, by omega,
        by show mId < s.nextTimerId + 1; omega,
        by show s.nextTimerId < s.nextTimerId + 1; omega,
        by simpa using hcalls, by simpa using hcli, rfl⟩
      · show aset L _ s.pendingByLang = _
        rw [hpb]
        simp [aset]
      · show aset L s.nextTimerId s.timerByLang = _
        rw [htl]
        simp [aset]
      · show cancelT dId s.timers ++ _ = _
        rw [htim]
        simp [cancelT, hne, Ne.symm hne]
    have hres := ih (fs ++ [a.frag]) t1 a.time _ hinv' hch'
      (fun x hx => hok x (List.mem_cons_of_mem _ hx))
    simpa [lastTime] using hres

/-! ## Claim C1: one translator call per debounce window -/

/-- C1: starting from a quiescent pipeline with at least one subscriber
for the supported language `L`, admitting a nonempty sequence of valid
fragments whose consecutive arrivals are less than `DEBOUNCE_MS` apart
and whose total span stays below `MAX_WAIT_MS`, and then letting every
timer fire, performs exactly one translator call, whose source text is
the admitted fragments joined by single spaces in admission order. -/
theorem c1_single_flush (tr : Translator) (s₀ : ServerState) (L : String)
    (a₀ : Admission) (rest : List Admission)
    (hcl : ∃ c ∈ s₀.sseClients, c.2.lang = L)
    (hsup : L ∈ SUPPORTED_LANGS)
    (hval : ∀ a ∈ a₀ :: rest, validAdm a)
    (hchain : List.Chain stepRel a₀.time (rest.map (fun a => a.time)))
    (hspan : lastTime a₀.time rest < a₀.time + MAX_WAIT_MS)
    (hq1 : s₀.timers = []) (hq2 : s₀.pendingByLang = []) (hq3 : s₀.timerByLang = [])
    (hq4 : s₀.calls = []) :
    (runScenario tr L (a₀ :: rest) s₀).calls =
      [(L, String.intercalate " " ((a₀ :: rest).map (fun a => a.frag)))] := by
  have hLlow := supported_lower L hsup
  have hcl' : 0 < (s₀.sseClients.filter (fun p => decide (p.2.lang = L))).length := by
    obtain ⟨c, hc, hlang⟩ := hcl
    have hmem : c ∈ s₀.sseClients.filter (fun p => decide (p.2.lang = L)) :=
      List.mem_filter.mpr ⟨hc, by simp [hlang]⟩
    exact List.length_pos_of_mem hmem
  obtain ⟨hv1, hv2, hv3⟩ := hval a₀ (List.mem_cons_self _ _)
  have hdue0 : ∀ tm ∈ s₀.timers, a₀.time < tm.fireAt := by rw [hq1]; simp
  have hstep0 : admitAt tr L a₀ s₀ =
      (ingest (IngestReq.mk (some a₀.frag) (some L) a₀.seqF a₀.ts)
        { s₀ with now := a₀.time }).2 := by
    unfold admitAt
    rw [runDue_no_due tr a₀.time s₀ hdue0]
  have hrc0 : 0 < (({ s₀ with now := a₀.time } : ServerState).sseClients.filter
      (fun p => decide (p.2.lang = L))).length := hcl'
  have hpb0 : alookup L ({ s₀ with now := a₀.time } : ServerState).pendingByLang = none := by
    show alookup L s₀.pendingByLang = none
    rw [hq2]; rfl
  have htl0 : alookup L ({ s₀ with now := a₀.time } : ServerState).timerByLang = none := by
    show alookup L s₀.timerByLang = none
    rw [hq3]; rfl
  have hinv1 : MidInv s₀ L [a₀.frag] a₀.time a₀.time (admitAt tr L a₀ s₀) := by
    rw [hstep0, ingest_fresh _ L a₀.frag a₀.seqF a₀.ts hLlow hsup hv1 hv2 hv3 hrc0 hpb0 htl0]
    refine ⟨s₀.nextTimerId, s₀.nextTimerId + 1, a₀.ts, seqToOpt a₀.seqF, ?_, ?_, ?_,
      by omega, by show s₀.nextTimerId < s₀.nextTimerId + 2; omega,
      by show s₀.nextTimerId + 1 < s₀.nextTimerId + 2; omega,
      by simpa using hq4, rfl, rfl⟩
    · show aset L _ s₀.pendingByLang = _
      rw [hq2]
      simp [aset]
    · show aset L _ s₀.timerByLang = _
      rw [hq3]
      simp [aset]
    · show (s₀.timers ++ _) ++ _ = _
      rw [hq1]
      simp
  have hbounds := le_lastTime a₀.time rest hchain
  have hok : ∀ a ∈ rest, validAdm a ∧ a.time < a₀.time + MAX_WAIT_MS :=
    fun a ha => ⟨hval a (List.mem_cons_of_mem _ ha), lt_of_le_of_lt (hbounds.2 a ha) hspan⟩
  have hmid := c1_steps tr s₀ L hcl' hLlow hsup rest [a₀.frag] a₀.time a₀.time _
    hinv1 hchain hok
  have hfin := runTimers_flush tr s₀ L ([a₀.frag] ++ rest.map (fun a => a.frag))
    a₀.time (lastTime a₀.time rest) _ hmid
  unfold runScenario
  rw [List.foldl_cons]
  simpa using hfin

/-- Witness for C1: two fragments 20ms apart for one English subscriber
produce the single call on "ciao mondo". -/
theorem c1_single_flush_witness :
    (∃ c ∈ wSub.sseClients, c.2.lang = "en") ∧
    (runScenario trW "en"
      [Admission.mk "ciao" .undef none 100, Admission.mk "mondo" .undef none 120]
      wSub).calls = [("en", "ciao mondo")] := by
  refine ⟨by decide, ?_⟩
  rw [c1_single_flush trW wSub "en" (Admission.mk "ciao" .undef none 100)
    [Admission.mk "mondo" .undef none 120] (by decide) (by decide) (by decide)
    (List.Chain.cons (by decide) List.Chain.nil) (by decide) rfl rfl rfl rfl]
  decide
